import Mathlib

/-!
# Verification of the smcview core against its specification

Shallow embedding of the three core components of the repository:
the Maude session driver (`src/maude`), the model-checker dump reader
(`src/smcdump`) and the dot-graph generator (`src/grapher`), together
with theorems settling the specification claims.

Conventions:
* Go byte strings that may carry arbitrary binary data are modelled as
  `List Nat` (one entry per byte); textual interpreter lines are
  modelled as Lean `String`s.
* Go slices read from files use `List.getD` with default `0`, matching
  the behaviour of ignored read errors (`binary.Read` leaves the
  zero value in place on EOF).
* Go runtime panics (nil-slice indexing, negative `make`, slicing an
  empty string) are modelled with `Option`/explicit `panic` outcomes.
-/

namespace maude

/-- State of a `Client` (src/maude/maude.go) as far as pure modelling is
concerned: the liveness flag. The interpreter-side state is carried
separately by `Interp`. -/
structure MaudeState where
  active : Bool
deriving DecidableEq, Repr

/-- Abstraction of the external Maude interpreter used by `Parse` and
`StratParse`: the only interpreter-side state the claims mention is the
currently selected module. -/
structure Interp where
  currentModule : String
deriving DecidableEq, Repr

/-- The opening-brace character, written via its code point. -/
def braceOpen : Char := Char.ofNat 123

/-- The closing-brace character, written via its code point. -/
def braceClose : Char := Char.ofNat 125

/-- Go `strings.HasPrefix`, going through the character list so that
concrete instances reduce inside the kernel. -/
def strHasPrefix (s pre : String) : Bool :=
  pre.toList.isPrefixOf s.toList

/-- Go `strings.HasSuffix` on the character list. -/
def strHasSuffix (s suf : String) : Bool :=
  suf.toList.isSuffixOf s.toList

/-- Whether every character of the string satisfies the predicate. -/
def strAll (s : String) (p : Char → Bool) : Bool :=
  s.toList.all p

/-- Whether `pat` occurs as a contiguous run inside `s`
(Go `strings.Contains`). -/
def listIsSubstr (pat : List Char) : List Char → Bool
  | [] => pat.isEmpty
  | c :: rest => pat.isPrefixOf (c :: rest) || listIsSubstr pat rest

/-- The numeric value of a digit string. -/
def digitsToNat (l : List Char) : Nat :=
  l.foldl (fun acc c => 10 * acc + (c.toNat - 48)) 0

/-- Model of Go `regexp` matching for
`sortRegex = "^sort ([^ ]+) ."` (src/maude/show.go line 11).
The capture group is a maximal nonempty run of non-space characters
(it cannot end earlier, since the following literal is a space), which
must be followed by a space and one further non-newline character. -/
def sortRegexFind (line : String) : Option String :=
  if strHasPrefix line "sort " then
    let rest := (line.drop 5).toList
    let cap := rest.takeWhile (fun c => c ≠ ' ')
    match rest.drop cap.length with
    | ' ' :: c :: _ => if cap ≠ [] ∧ c ≠ '\n' then some (String.mk cap) else none
    | _ => none
  else none

/-- The module/theory keywords of `modRegex` and `moddeclRegex`
(src/maude/maude.go line 21, src/maude/show.go line 10), in the order
they appear in the alternation. No keyword is a prefix of another, so
the alternation is deterministic. -/
def modKeywords : List String := ["fmod", "mod", "smod", "fth", "th", "sth"]

/-- Model of Go `regexp` matching for
`modRegex = "^(fmod|mod|smod|fth|th|sth) ([^ {]+)\n$"`.
Returns (kind, name). The name capture must cover everything strictly
between the keyword-plus-space and the final newline, and may not
contain a space or an opening brace. -/
def modRegexFind (line : String) : Option (String × String) :=
  match modKeywords.find? (fun k => strHasPrefix line (k ++ " ")) with
  | none => none
  | some kind =>
    let rest := line.drop (kind.length + 1)
    if strHasSuffix rest "\n" then
      let name := rest.dropRight 1
      if name ≠ "" ∧ strAll name (fun c => c ≠ ' ' ∧ c ≠ braceOpen) then
        some (kind, name)
      else none
    else none

/-- Model of Go `regexp` matching for `moddeclRegex =
"^(fmod|mod|smod|fth|th|sth) ([^ {]+)(?:{([^}]*)})? is\n$"`
(src/maude/show.go line 10). Returns (kind, name, params).
The name capture is the maximal run of non-space non-brace characters
(the continuation must start with a space or an opening brace, both
excluded from the class); the optional brace group captures
non-closing-brace characters; then the literal " is\n" must close the
line. -/
def moddeclRegexFind (line : String) : Option (String × String × String) :=
  match modKeywords.find? (fun k => strHasPrefix line (k ++ " ")) with
  | none => none
  | some kind =>
    let rest := (line.drop (kind.length + 1)).toList
    let name := rest.takeWhile (fun c => c ≠ ' ' ∧ c ≠ braceOpen)
    if name = [] then none else
    match rest.drop name.length with
    | c :: tail =>
      if c = braceOpen then
        let params := tail.takeWhile (fun c => c ≠ braceClose)
        match tail.drop params.length with
        | c' :: tail' =>
          if c' = braceClose ∧ String.mk tail' = " is\n" then
            some (kind, String.mk name, String.mk params)
          else none
        | [] => none
      else if String.mk (c :: tail) = " is\n" then
        some (kind, String.mk name, "")
      else none
    | [] => none

/-- Model of Go `regexp` matching for
`resultRegex = "^result ([^:]+): (.*)\n$"` (the reduce result line).
Returns (type, term). The type capture is the maximal nonempty run of
non-colon characters; the term capture is everything up to the final
newline and may not itself contain a newline. -/
def resultRegexFind (line : String) : Option (String × String) :=
  if strHasPrefix line "result " then
    let rest := (line.drop 7).toList
    let ty := rest.takeWhile (fun c => c ≠ ':')
    match rest.drop ty.length with
    | ':' :: ' ' :: body =>
      if ty ≠ [] ∧ body.getLast? = some '\n' ∧ (body.dropLast.all (fun c => c ≠ '\n'))
      then some (String.mk ty, String.mk body.dropLast) else none
    | _ => none
  else none

/-- Model of Go `regexp` matching for
`noParseRegex = "^no(?:Strat)?Parse\\(([^\\)]+)\\)$"`
(src/maude/parse.go line 10). Returns the capture: the nonempty
parenthesised text, which may not contain a closing parenthesis. -/
def noParseRegexFind (s : String) : Option String :=
  let core (rest : String) : Option String :=
    if strHasSuffix rest ")" then
      let cap := rest.dropRight 1
      if cap ≠ "" ∧ strAll cap (fun c => c ≠ ')') then some cap else none
    else none
  if strHasPrefix s "noStratParse(" then core (s.drop 13)
  else if strHasPrefix s "noParse(" then core (s.drop 8)
  else none

/-- Model of Go `strconv.Atoi` with the error discarded
(`pos, _ := strconv.Atoi(match[1])`): an optional single sign followed
by digits; any other input yields the zero value. Range clamping on
overflow is not modelled (the embedding's integers are unbounded). -/
def atoi (s : String) : Int :=
  let (sign, digits) :=
    if strHasPrefix s "-" then ((-1 : Int), s.drop 1)
    else if strHasPrefix s "+" then ((1 : Int), s.drop 1)
    else ((1 : Int), s)
  if digits ≠ "" ∧ strAll digits Char.isDigit then sign * digitsToNat digits.toList
  else 0

/-!
## Session driver operations

Each operation that reads interpreter output is modelled as a function
of the client state plus `lines`: the list of output lines the
interpreter produces before its next prompt (each line carries its
trailing newline, as returned by `ReadString('\n')`). The prompt
detection loop `for !c.promptReached()` corresponds to traversing
exactly this list.
-/

/-- `Client.ModuleInfo` (src/maude/show.go). -/
structure ModuleInfo where
  name : String
  type : String
deriving DecidableEq, Repr

/-- `Client.Load` (src/maude/maude.go lines 89-97): returns `false`
when inactive, otherwise sends the load directive and returns `true`. -/
def Load (c : MaudeState) (_source : String) : Bool :=
  if c.active = false then false else true

/-- `Client.RawInput` (src/maude/maude.go lines 201-218): returns the
string "inactive" when the session is inactive; otherwise accumulates
every output line verbatim until the prompt. -/
def RawInput (c : MaudeState) (_input : String) (lines : List String) : String :=
  if c.active = false then "inactive"
  else String.join lines

/-- `Client.CurrentModuleName` (src/maude/maude.go lines 156-173):
empty string when inactive; otherwise the name captured by
`moddeclRegex` on the first output line, or empty string when there is
no line before the prompt or the line does not match. -/
def CurrentModuleName (c : MaudeState) (lines : List String) : String :=
  if c.active = false then ""
  else
    match lines with
    | [] => ""
    | line :: _ =>
      match moddeclRegexFind line with
      | some (_, name, _) => name
      | none => ""

/-- `Client.Modules` (src/maude/show.go lines 32-52): nil when
inactive; otherwise one `ModuleInfo` per line matching `modRegex`,
in order (`ModuleInfo{match[2], match[1]}`). -/
def Modules (c : MaudeState) (lines : List String) : List ModuleInfo :=
  if c.active = false then []
  else lines.filterMap (fun line =>
    (modRegexFind line).map (fun m => ModuleInfo.mk m.2 m.1))

/-- `Client.Sorts` (src/maude/show.go lines 89-108): nil when inactive.
When active, every line is matched against `sortRegex` and `match[1]`
is appended *without checking the match for nil*; a non-matching line
therefore makes the Go code panic with an index-out-of-range error,
modelled here by `none`. -/
def Sorts (c : MaudeState) (lines : List String) : Option (List String) :=
  if c.active = false then some []
  else
    lines.foldlM (fun acc line =>
      (sortRegexFind line).map (fun s => acc ++ [s])) []

/-- `ReduceResult` (the reduce module of package maude). -/
structure ReduceResult where
  Ok : Bool
  Term : String
  Ty : String
deriving DecidableEq, Repr

/-- Removes one trailing newline, as Go `strings.TrimSuffix(s, "\n")`. -/
def trimNewlineSuffix (s : String) : String :=
  if strHasSuffix s "\n" then s.dropRight 1 else s

/-- The read loop of `Client.reduce`: scans the output lines for the
first `resultRegex` match and breaks; if further lines remain before
the prompt, the term continues on them (a newline plus the remaining
lines are appended, and one final newline is trimmed). No match before
the prompt leaves the zero-valued failure result. -/
def reduceLoop : List String → ReduceResult
  | [] => ⟨false, "", ""⟩
  | line :: rest =>
    match resultRegexFind line with
    | some (ty, term) =>
      if rest ≠ [] then
        ⟨true, trimNewlineSuffix (term ++ "\n" ++ String.join rest), ty⟩
      else ⟨true, term, ty⟩
    | none => reduceLoop rest

/-- `Client.reduce` (package maude, reduce module): returns the
zero-valued failure result when inactive, otherwise runs the read
loop on the produced output. -/
def reduce (c : MaudeState) (_command : String) (lines : List String) : ReduceResult :=
  if c.active = false then ⟨false, "", ""⟩
  else reduceLoop lines

/-- `Client.Reduce`: reduces a term in the current module. -/
def Reduce (c : MaudeState) (term : String) (lines : List String) : ReduceResult :=
  reduce c ("red " ++ term ++ " .\n") lines

/-- Substring containment, as Go `strings.Contains`. -/
def containsSubstring (s pat : String) : Bool :=
  listIsSubstr pat.toList s.toList

/-- The `appendStatement` closure of `Client.collectStatements`
(src/maude/show.go lines 280-285): trims one trailing newline and
appends the statement unless a nonempty label filter is missing from
it. -/
def appendStatement (label : String) (stmts : List String) (stmt : String) : List String :=
  let s := trimNewlineSuffix stmt
  if label = "" ∨ containsSubstring s ("label " ++ label) then stmts ++ [s]
  else stmts

/-- One iteration of the `collectStatements` read loop
(src/maude/show.go lines 287-300). Note that when a keyword line
arrives while the accumulator is empty, the Go code does nothing at
all (both the append and `statement = line` sit inside
`if statement != ""`), so that line is dropped. -/
def collectStep (keyword ckeyword label : String)
    (st : List String × String) (line : String) : List String × String :=
  if strHasPrefix line ckeyword ∨ strHasPrefix line keyword then
    if st.2 ≠ "" then (appendStatement label st.1 st.2, line)
    else st
  else (st.1, st.2 ++ line)

/-- `Client.collectStatements` (src/maude/show.go lines 263-309):
nil when inactive; otherwise folds the read loop over the output lines
and flushes the last pending statement. -/
def collectStatements (c : MaudeState) (keyword label : String)
    (lines : List String) : List String :=
  if c.active = false then []
  else
    let kw := keyword ++ " "
    let ckw := "c" ++ kw
    let final := lines.foldl (collectStep kw ckw label) ([], "")
    if final.2 ≠ "" then appendStatement label final.1 final.2
    else final.1

/-- `Client.Rules` (src/maude/show.go lines 313-315). -/
def Rules (c : MaudeState) (label : String) (lines : List String) : List String :=
  collectStatements c "rl" label lines

/-- `Client.Equations` (src/maude/show.go lines 319-321). -/
def Equations (c : MaudeState) (label : String) (lines : List String) : List String :=
  collectStatements c "eq" label lines

/-- `ParseOutcome` (src/maude/parse.go lines 13-20). -/
inductive ParseOutcome where
  | Ok
  | GenError
  | NoParse
  | Ambiguity
deriving DecidableEq, Repr

/-- `ParseResult` (src/maude/parse.go lines 24-27). -/
structure ParseResult where
  Ty : ParseOutcome
  Pos : Int
deriving DecidableEq, Repr

/-- Effect of `Client.Select` (src/maude/maude.go lines 176-181) on
the interpreter: when the session is active, the selected module
becomes the given one; otherwise nothing happens. -/
def Select (c : MaudeState) (m : String) (i : Interp) : Interp :=
  if c.active then { currentModule := m } else i

/-- The interpreter answer used by `Client.CurrentModuleName` inside
`Parse`/`StratParse`: for an active session the interpreter reports
the declaration of its currently selected module, whose name is the
caller-visible current module. -/
def currentModuleAnswer (c : MaudeState) (i : Interp) : String :=
  if c.active then i.currentModule else ""

/-- The classification tail shared by `Parse` and `StratParse`
(src/maude/parse.go lines 55-70 and 99-114): when the result type is
the query sort (`ResultPair?` / `Strategy?`) the term is inspected for
an ambiguity prefix or a no-parse position; otherwise the parse
succeeded. -/
def classifyParse (querySort : String) (r : ReduceResult) : ParseResult :=
  if r.Ty = querySort then
    if strHasPrefix r.Term "ambiguity" then ⟨ParseOutcome.Ambiguity, 0⟩
    else
      match noParseRegexFind r.Term with
      | some cap => ⟨ParseOutcome.NoParse, atoi cap⟩
      | none => ⟨ParseOutcome.GenError, 0⟩
  else ⟨ParseOutcome.Ok, 0⟩

/-- `Client.Parse` (src/maude/parse.go lines 30-71), with the two
chained reductions supplied as oracles `red1` (the `LEXICAL` tokenize
call) and `red2` (the `META-LEVEL` metaParse call), each mapping the
interpreter state to a successor state and a reduction result. The
`defer c.Select(module)` is executed on every return path after the
early inactive check. -/
def Parse (c : MaudeState) (i : Interp)
    (red1 red2 : Interp → Interp × ReduceResult) : ParseResult × Interp :=
  if c.active = false then (⟨ParseOutcome.GenError, 0⟩, i)
  else
    let module := currentModuleAnswer c i
    let (i1, r1) := red1 i
    if r1.Ok = false then (⟨ParseOutcome.GenError, 0⟩, Select c module i1)
    else
      let (i2, r2) := red2 i1
      if r2.Ok = false then (⟨ParseOutcome.GenError, 0⟩, Select c module i2)
      else (classifyParse "ResultPair?" r2, Select c module i2)

/-- `Client.StratParse` (src/maude/parse.go lines 74-115): same shape
as `Parse`, with the meta-level call being `metaStratParse` and the
query sort `Strategy?`. -/
def StratParse (c : MaudeState) (i : Interp)
    (red1 red2 : Interp → Interp × ReduceResult) : ParseResult × Interp :=
  if c.active = false then (⟨ParseOutcome.GenError, 0⟩, i)
  else
    let module := currentModuleAnswer c i
    let (i1, r1) := red1 i
    if r1.Ok = false then (⟨ParseOutcome.GenError, 0⟩, Select c module i1)
    else
      let (i2, r2) := red2 i1
      if r2.Ok = false then (⟨ParseOutcome.GenError, 0⟩, Select c module i2)
      else (classifyParse "Strategy?" r2, Select c module i2)

end maude

namespace smcdump


/-!
## Trace store (package smcdump)

The dump file is modelled as a `List Nat` of bytes. Sequential buffered
reading and positioned reads are both modelled by absolute positions
into that list; a read past the end of the file leaves the Go zero
value in place (errors are ignored by the source), modelled by
`List.getD _ 0` and by the explicit length guard in `rd32`.
-/

/-- The starting bytes of any dump file: `header = []byte("msmc-output")`
(src/smcdump/smcdump.go line 58). -/
def header : List Nat := [109, 115, 109, 99, 45, 111, 117, 116, 112, 117, 116]

/-- Effect of `file.Read(buffer)` for a regular file: the first
`min (length content) (length buffer)` bytes of the buffer are
overwritten with the start of the file, the rest of the buffer keeps
its previous contents. -/
def readInto (buffer content : List Nat) : List Nat :=
  content.take buffer.length ++ buffer.drop (min content.length buffer.length)

/-- `HasSignature` (src/smcdump/smcdump.go lines 67-79) as a function
of the shared package-level `headerBuffer` (11 bytes, allocated once
and reused across calls) and the opened file's content (`none` models
an `os.Open` failure). Returns the result together with the buffer
state left behind for subsequent calls. -/
def HasSignature (buffer : List Nat) (file : Option (List Nat)) :
    Bool × List Nat :=
  match file with
  | none => (false, buffer)
  | some content =>
    let b := readInto buffer content
    (decide (b = header), b)

/-- The freshly allocated `headerBuffer = make([]byte, 11)`. -/
def initialHeaderBuffer : List Nat := List.replicate 11 0

/-- `binary.Read` of a little-endian `int32` at an absolute position:
the four bytes are recomposed and sign-extended; when fewer than four
bytes remain the read error is ignored and the zero value is kept. -/
def rd32 (f : List Nat) (pos : Nat) : Int :=
  if pos + 4 ≤ f.length then
    let u := f.getD pos 0 % 256 + 256 * (f.getD (pos + 1) 0 % 256)
      + 65536 * (f.getD (pos + 2) 0 % 256)
      + 16777216 * (f.getD (pos + 3) 0 % 256)
    if u < 2147483648 then (u : Int) else (u : Int) - 4294967296
  else 0

/-- `readArray` (src/smcdump/smcdump.go lines 173-178): `n` successive
`int32` reads starting at `pos`. -/
def readArrayM (f : List Nat) (pos : Nat) : Nat → List Int
  | 0 => []
  | n + 1 => rd32 f pos :: readArrayM f (pos + 4) n

/-- `reader.ReadString(0)`: reads up to and including the first zero
byte; at end of file the remainder is returned (with the error
ignored by the source). Returns the bytes read and the new position. -/
def goReadString0 (f : List Nat) (pos : Nat) : List Nat × Nat :=
  let rest := f.drop pos
  let s := rest.takeWhile (fun b => b ≠ 0)
  if s.length < rest.length then (s ++ [0], pos + s.length + 1)
  else (s, pos + s.length)

/-- Go `s[:len(s)-1]`, which panics (modelled by `none`) on an empty
string. -/
def goDropLast : List Nat → Option (List Nat)
  | [] => none
  | l => some l.dropLast

/-- The in-memory fields of the `smcdump` structure
(src/smcdump/smcdump.go lines 91-102) that `Read` fills in. -/
structure SmcDumpData where
  path : List Int
  cycle : List Int
  initialTerm : List Nat
  ltlFormula : List Nat
  statesIndex : List Int
  stringsIndex : List Int
deriving DecidableEq, Repr

/-- The possible outcomes of `Read`: an `os.Open` failure, a Go
runtime panic (negative `make` size or slicing an empty string), the
two explicit format-error returns, or success. -/
inductive ReadExit where
  | openError
  | panic
  | errNoMark
  | errBadVersion
  | ok (d : SmcDumpData)
deriving DecidableEq, Repr

/-- Whether the file handle opened by `Read` is open when `Read`
returns. The source contains no `Close` call and no `defer` in `Read`,
so every return after a successful `os.Open` leaves the handle open
(intentionally so on success: states and strings are later read
through it). -/
inductive HandleState where
  | neverOpened
  | stillOpen
deriving DecidableEq, Repr

/-- The tail of `Read` (src/smcdump/smcdump.go lines 238-259): the
state-offset table, the pointer to the string table, the seek to it,
and the length-prefixed string-offset table.
`make([]int32, stringsTableSize+1)` panics on a negative size.
A negative table pointer would make the `Seek` fail with the error
ignored; well-formed files have a nonnegative pointer, and only that
case is modelled (`Int.toNat`). -/
def readTail (f : List Nat) (pathL cycleL : List Int)
    (initialTerm ltlFormula : List Nat) (nStates pos : Nat) : ReadExit :=
  let statesIndex := readArrayM f pos nStates
  let stringsTableOffset := rd32 f (pos + 4 * nStates)
  let sOff := stringsTableOffset.toNat
  let stringsTableSize := rd32 f sOff
  if stringsTableSize + 1 < 0 then ReadExit.panic
  else
    let stringsIndex := readArrayM f (sOff + 4) (stringsTableSize + 1).toNat
    ReadExit.ok ⟨pathL, cycleL, initialTerm, ltlFormula, statesIndex, stringsIndex⟩

/-- `Read` (src/smcdump/smcdump.go lines 181-260) on the opened file's
content (`none` models an `os.Open` failure with a nil file). The
initial mark and version are validated; the two NUL-terminated header
strings are read and their terminators sliced off; the property flag
and state count follow; the path and the cycle are present exactly
when the property does not hold; then the state-offset table and the
string-offset table. The second component records that no return path
of the source closes the opened file handle. -/
def Read (file : Option (List Nat)) : ReadExit × HandleState :=
  match file with
  | none => (ReadExit.openError, HandleState.neverOpened)
  | some f =>
    let initialMark := readInto (List.replicate 11 0) f
    if initialMark ≠ header then (ReadExit.errNoMark, HandleState.stillOpen)
    else
      let version := f.getD 11 0
      if version ≠ 0 then (ReadExit.errBadVersion, HandleState.stillOpen)
      else
        let (s1, pos1) := goReadString0 f 12
        let (s2, pos2) := goReadString0 f pos1
        match goDropLast s1, goDropLast s2 with
        | some initialTerm, some ltlFormula =>
          let propertyHolds := f.getD pos2 0 = 0
          let numberOfStates := rd32 f (pos2 + 1)
          let pos3 := pos2 + 5
          if propertyHolds then
            if numberOfStates < 0 then (ReadExit.panic, HandleState.stillOpen)
            else
              (readTail f [] [] initialTerm ltlFormula numberOfStates.toNat pos3,
                HandleState.stillOpen)
          else
            let pathSize := rd32 f pos3
            if pathSize < 0 then (ReadExit.panic, HandleState.stillOpen)
            else
              let pathL := readArrayM f (pos3 + 4) pathSize.toNat
              let pos4 := pos3 + 4 + 4 * pathSize.toNat
              let cycleSize := rd32 f pos4
              if cycleSize < 0 then (ReadExit.panic, HandleState.stillOpen)
              else
                let cycleL := readArrayM f (pos4 + 4) cycleSize.toNat
                let pos5 := pos4 + 4 + 4 * cycleSize.toNat
                if numberOfStates < 0 then (ReadExit.panic, HandleState.stillOpen)
                else
                  (readTail f pathL cycleL initialTerm ltlFormula
                    numberOfStates.toNat pos5, HandleState.stillOpen)
        | _, _ => (ReadExit.panic, HandleState.stillOpen)

/-- `smcdump.PropertyHolds` (src/smcdump/smcdump.go lines 133-135):
`len(d.cycle) == 0`. -/
def PropertyHolds (d : SmcDumpData) : Bool :=
  d.cycle.length == 0

/-- `smcdump.GetString` (src/smcdump/smcdump.go lines 120-127): the
length is the difference of two consecutive string-offset entries and
exactly that many bytes are read at the first offset (`ReadAt` leaves
zero bytes past the end of the file). In-range indices are the
intended use (an out-of-range index or a negative length panics in Go;
`getD`/`toNat` stand in for values the claims never exercise). -/
def GetString (f : List Nat) (d : SmcDumpData) (stringNr : Nat) : List Nat :=
  let off := d.stringsIndex.getD stringNr 0
  let stringLength := d.stringsIndex.getD (stringNr + 1) 0 - off
  (List.range stringLength.toNat).map (fun j => f.getD (off.toNat + j) 0)

/-- The little-endian byte encoding of a 32-bit value given as a
natural number below `2 ^ 32`. -/
def le32n (v : Nat) : List Nat :=
  [v % 256, v / 256 % 256, v / 65536 % 256, v / 16777216 % 256]

/-- The little-endian byte encoding of an `int32` value. -/
def le32i (v : Int) : List Nat :=
  le32n (v % 4294967296).toNat

/-- The string-offset table produced for strings laid out contiguously
from byte offset `base`: one entry per string plus a final entry
marking the end of the table. -/
def stringOffsets (base : Nat) : List (List Nat) → List Nat
  | [] => [base]
  | s :: rest => base :: stringOffsets (base + s.length) rest

/-- Modelled from the spec: the dump writer is part of the external
model checker and absent from the repository; this encoder follows the
byte format of spec §6 ("Trace dump binary format"): signature,
version 0, the two NUL-terminated strings, the property flag (0 when
the property holds), the `int32` state count, the length-prefixed path
and cycle exactly when a counterexample is present, the state-offset
table, the pointer to the string table; then the state records blob,
the contiguous run of interned strings, and at the pointed-to offset
the length-prefixed string-offset table (N+1 entries, the last marking
the end of the table). -/
def encodeFront (initialTerm ltlFormula : List Nat)
    (counter : Option (List Int × List Int)) (statesIndex : List Int) : List Nat :=
  let holdsByte : Nat := match counter with | none => 0 | some _ => 1
  let counterBytes : List Nat :=
    match counter with
    | none => []
    | some (p, c) =>
      le32n p.length ++ (p.map le32i).flatten ++ le32n c.length ++ (c.map le32i).flatten
  header ++ [0] ++ initialTerm ++ [0] ++ ltlFormula ++ [0] ++ [holdsByte]
    ++ le32n statesIndex.length ++ counterBytes ++ (statesIndex.map le32i).flatten

def encodeDump (initialTerm ltlFormula : List Nat)
    (counter : Option (List Int × List Int))
    (statesIndex : List Int) (stateData : List Nat)
    (strings : List (List Nat)) : List Nat :=
  let front := encodeFront initialTerm ltlFormula counter statesIndex
  let runStart := front.length + 4 + stateData.length
  let tableOff := runStart + (strings.map List.length).sum
  front ++ le32n tableOff ++ stateData ++ strings.flatten
    ++ le32n strings.length ++ ((stringOffsets runStart strings).map le32n).flatten


/-- Byte access with the Go zero default. -/
def byteAt (f : List Nat) (i : Nat) : Nat := f.getD i 0

end smcdump

namespace grapher


/-- Rendering mode, `GraphOpt` of src/grapher/dotgen.go lines 21-28. -/
inductive GraphOpt where
  | Legend
  | Term
  | Strat
  | Short
deriving DecidableEq, Repr

/-- A transition as the grapher reads it from the dump
(`smcdump.Transition`): the kind tag is kept as the integer the dump
carries (0 = idle, 1 = rule, 2 = opaque-strategy; other values render
an empty label, as in the Go switch without a default case). -/
structure TransitionM where
  target : Int
  label : Int
  trType : Int
deriving DecidableEq, Repr

/-- A state as the grapher reads it from the dump (`smcdump.State`). -/
structure StateM where
  successors : List TransitionM
  solution : Bool
  term : Int
  strategy : Int
deriving DecidableEq, Repr

/-- The `smcdump.SmcDump` interface as the grapher consumes it. -/
structure DumpM where
  path : List Int
  cycle : List Int
  numberOfStates : Nat
  state : Int → StateM
  getString : Int → List Nat

/-- The two per-render seen-sets of `Grapher`
(src/grapher/dotgen.go lines 31-35); a Go map over int32 keys is an
unordered set of keys. -/
structure SeenSets where
  seenTerms : Finset Int
  seenStrats : Finset Int

/-- One emitted graph statement: a node statement (with its rendered
label bytes and the filled style for solution states) or an edge
statement. -/
inductive DotItem where
  | node (stateNr : Int) (label : List Nat) (filled : Bool)
  | edge (source target : Int) (label : List Nat)
deriving DecidableEq, Repr

/-- The rendered output: the node/edge statements in emission order,
and, in legend mode, the key sets of the two legend tables
(`generateLegend` prints one table row per key of each seen-set, so
the tables are faithfully represented by their key sets). -/
structure DotOutput where
  items : List DotItem
  legendTerms : Option (Finset Int)
  legendStrats : Option (Finset Int)

mutual

/-- `util.CleanString` (src/util/simplifier.go): drops every run from
an ESC byte (27) up to and including the next `m` byte (109). -/
def cleanString : List Nat → List Nat
  | [] => []
  | b :: rest =>
    if b = 27 then skipAnsi rest else b :: cleanString rest

/-- Inner loop of `util.CleanString`: skip bytes until an `m` is
found, then resume cleaning after it. -/
def skipAnsi : List Nat → List Nat
  | [] => []
  | b :: rest => if b = 109 then cleanString rest else skipAnsi rest

end

/-- One byte of Go `html.EscapeString`: the five escaped characters
`&`, `'`, `<`, `>`, `"` become their entities. -/
def escapeHtmlByte (b : Nat) : List Nat :=
  if b = 38 then [38, 97, 109, 112, 59]
  else if b = 39 then [38, 35, 51, 57, 59]
  else if b = 60 then [38, 108, 116, 59]
  else if b = 62 then [38, 103, 116, 59]
  else if b = 34 then [38, 35, 51, 52, 59]
  else [b]

/-- `util.CleanHtmlString`: ANSI strip then HTML escape. -/
def cleanHtmlString (l : List Nat) : List Nat :=
  ((cleanString l).map escapeHtmlByte).flatten

/-- One byte of the double-quote escaping of `util.CleanEscapeString`. -/
def escapeQuoteByte (b : Nat) : List Nat :=
  if b = 34 then [92, 34] else [b]

/-- `util.CleanEscapeString`. -/
def cleanEscapeString (l : List Nat) : List Nat :=
  ((cleanHtmlString l).map escapeQuoteByte).flatten

/-- The ASCII bytes of the decimal rendering of an integer (`%d`). -/
def decRepr (n : Int) : List Nat :=
  (toString n).toList.map Char.toNat

/-- The compact node label `(%d, %d)` of the Legend and Short modes. -/
def pairLabel (term strat : Int) : List Nat :=
  [40] ++ decRepr term ++ [44, 32] ++ decRepr strat ++ [41]

/-- The edge label of `graphState` (src/grapher/dotgen.go lines
150-158): "idle" for idle transitions, the decoded label for rule
transitions, "opaque(label)" for opaque-strategy transitions, and the
zero-valued empty string for any other kind tag. -/
def edgeLabel (dump : DumpM) (tr : TransitionM) : List Nat :=
  if tr.trType = 0 then [105, 100, 108, 101]
  else if tr.trType = 1 then dump.getString tr.label
  else if tr.trType = 2 then
    [111, 112, 97, 113, 117, 101, 40] ++ dump.getString tr.label ++ [41]
  else []

/-- Label truncation (src/grapher/dotgen.go lines 160-162): labels
longer than 20 bytes are cut to 20 bytes plus an ellipsis. -/
def truncate20 (l : List Nat) : List Nat :=
  if l.length > 20 then l.take 20 ++ [46, 46, 46] else l

/-- `Grapher.graphState` (src/grapher/dotgen.go lines 126-167): emits
one node statement for the state, updates the seen-sets in Legend
mode, and emits one edge statement per successor transition whose
target is the requested one (or per successor when `targetNr` is
negative). -/
def graphState (gopt : GraphOpt) (dump : DumpM) (stateNr targetNr : Int)
    (seen : SeenSets) : List DotItem × SeenSets :=
  let state := dump.state stateNr
  let pick : List Nat × SeenSets :=
    match gopt with
    | GraphOpt.Legend =>
      (pairLabel state.term state.strategy,
       ⟨insert state.term seen.seenTerms, insert state.strategy seen.seenStrats⟩)
    | GraphOpt.Short => (pairLabel state.term state.strategy, seen)
    | GraphOpt.Term => (cleanEscapeString (dump.getString state.term), seen)
    | GraphOpt.Strat => (cleanEscapeString (dump.getString state.strategy), seen)
  let labelBytes := pick.1
  let seen' := pick.2
  let edges := (state.successors.filter
      (fun tr => targetNr < 0 ∨ tr.target = targetNr)).map
    (fun tr => DotItem.edge stateNr tr.target (truncate20 (edgeLabel dump tr)))
  (DotItem.node stateNr labelBytes state.solution :: edges, seen')

/-- The node/edge statements of `graphState`, which do not depend on
the incoming seen-sets. -/
def stateItems (gopt : GraphOpt) (dump : DumpM) (stateNr targetNr : Int) :
    List DotItem :=
  (graphState gopt dump stateNr targetNr ⟨∅, ∅⟩).1

/-- The grapher loop: one `graphState` call per (state, target) pair,
threading the seen-sets. -/
def runChain (gopt : GraphOpt) (dump : DumpM) :
    List (Int × Int) → SeenSets → List DotItem × SeenSets
  | [], seen => ([], seen)
  | pr :: rest, seen =>
    ((graphState gopt dump pr.1 pr.2 seen).1
        ++ (runChain gopt dump rest (graphState gopt dump pr.1 pr.2 seen).2).1,
     (runChain gopt dump rest (graphState gopt dump pr.1 pr.2 seen).2).2)

/-- The (state, target) pairs of `GenerateDot`: every state index with
the accept-all target -1. -/
def dotPairs (dump : DumpM) : List (Int × Int) :=
  (List.range dump.numberOfStates).map (fun i => ((i : Int), (-1 : Int)))

/-- The successor of each element of `l` in the rendered sequence,
with the last element wrapping to `wrap` — the target selection of the
two loops of `GenerateCounterDot` (src/grapher/dotgen.go lines
95-117). -/
def chainTargets (l : List Int) (wrap : Int) : List (Int × Int) :=
  match l with
  | [] => []
  | x :: xs =>
    (x, match xs with | [] => wrap | y :: _ => y) :: chainTargets xs wrap

/-- The (state, target) pairs of `GenerateCounterDot`: the path then
the cycle, each pair targeting the next element, the last path element
and the last cycle element both targeting the cycle's first element
(`cycle[0]`; the Go code panics when the path is nonempty and the
cycle empty — dumps with a counterexample have a nonempty cycle, and
`getD` stands in for that unreachable panic). -/
def counterPairs (dump : DumpM) : List (Int × Int) :=
  chainTargets dump.path (dump.cycle.getD 0 0)
    ++ chainTargets dump.cycle (dump.cycle.getD 0 0)

/-- `Grapher.GenerateDot` (src/grapher/dotgen.go lines 65-81). The
`_g` argument is the grapher's seen-set state from previous renders;
`g.Clean()` discards it at the start of every render, so the output
never depends on it. In Legend mode the legend tables hold the final
seen-sets. -/
def GenerateDot (gopt : GraphOpt) (_g : SeenSets) (dump : DumpM) : DotOutput :=
  let (items, seen) := runChain gopt dump (dotPairs dump) ⟨∅, ∅⟩
  ⟨items,
   if gopt = GraphOpt.Legend then some seen.seenTerms else none,
   if gopt = GraphOpt.Legend then some seen.seenStrats else none⟩

/-- `Grapher.GenerateCounterDot` (src/grapher/dotgen.go lines
84-124), with the same `Clean()` semantics as `GenerateDot`. -/
def GenerateCounterDot (gopt : GraphOpt) (_g : SeenSets) (dump : DumpM) :
    DotOutput :=
  let (items, seen) := runChain gopt dump (counterPairs dump) ⟨∅, ∅⟩
  ⟨items,
   if gopt = GraphOpt.Legend then some seen.seenTerms else none,
   if gopt = GraphOpt.Legend then some seen.seenStrats else none⟩

/-- Whether an item is a node statement. -/
def isNode : DotItem → Bool
  | DotItem.node _ _ _ => true
  | DotItem.edge _ _ _ => false

/-- Whether an item is an edge statement. -/
def isEdge : DotItem → Bool
  | DotItem.node _ _ _ => false
  | DotItem.edge _ _ _ => true

/-- The number of node statements in a rendering. -/
def countNodes (items : List DotItem) : Nat := (items.filter isNode).length

/-- The number of edge statements in a rendering. -/
def countEdges (items : List DotItem) : Nat := (items.filter isEdge).length

/-- The term string indices referenced by the rendered nodes. -/
def nodeTermRefs (dump : DumpM) (pairs : List (Int × Int)) : Finset Int :=
  (pairs.map (fun pr => (dump.state pr.1).term)).toFinset

/-- The strategy string indices referenced by the rendered nodes. -/
def nodeStratRefs (dump : DumpM) (pairs : List (Int × Int)) : Finset Int :=
  (pairs.map (fun pr => (dump.state pr.1).strategy)).toFinset

/-- The string indices referenced as labels by the rendered edges:
the labels of the rule and opaque-strategy transitions that pass the
target filter of `graphState`. -/
def edgeLabelRefs (dump : DumpM) (pairs : List (Int × Int)) : Finset Int :=
  ((pairs.map (fun pr =>
      ((dump.state pr.1).successors.filter
          (fun tr => pr.2 < 0 ∨ tr.target = pr.2)).filter
        (fun tr => tr.trType = 1 ∨ tr.trType = 2))).flatten.map
    (fun tr => tr.label)).toFinset

/-- A two-state counterexample dump: the path state 0 reaches the
cycle state 1 by two distinct rule transitions (labels 7 and 8), and
state 1 loops to itself by one rule transition (label 9). -/
def twoEdgeDump : DumpM :=
  ⟨[0], [1], 2,
   fun n =>
     if n = 0 then ⟨[⟨1, 7, 1⟩, ⟨1, 8, 1⟩], false, 0, 0⟩
     else if n = 1 then ⟨[⟨1, 9, 1⟩], false, 0, 0⟩
     else ⟨[], false, 0, 0⟩,
   fun _ => []⟩

/-- A one-state dump whose only transition is a rule edge labelled by
string index 5, while the state's term and strategy are both string
index 0. -/
def edgeLabelDump : DumpM :=
  ⟨[], [], 1,
   fun n =>
     if n = 0 then ⟨[⟨0, 5, 1⟩], false, 0, 0⟩
     else ⟨[], false, 0, 0⟩,
   fun i => if i = 5 then [114, 49] else []⟩

/-- A counterexample dump where every consecutive pair is realized by
exactly one transition: 0 goes to 1 by one rule, 1 loops by one rule. -/
def uniqueEdgeDump : DumpM :=
  ⟨[0], [1], 2,
   fun n =>
     if n = 0 then ⟨[⟨1, 7, 1⟩], true, 3, 4⟩
     else if n = 1 then ⟨[⟨1, 9, 1⟩], false, 3, 5⟩
     else ⟨[], false, 0, 0⟩,
   fun _ => [97]⟩

end grapher


namespace maude

/-- For an active session, selecting a module makes it the current one. -/
theorem select_currentModule (c : MaudeState) (h : c.active = true)
    (m : String) (i : Interp) : (Select c m i).currentModule = m := by
  simp [Select, h]

/-- C2: the Sorts read loop panics (modelled by `none`) as soon as a
line fails to match the sort pattern, instead of skipping it: the
match result is indexed without a nil check. -/
theorem sorts_panics_on_nonmatching_line :
    sortRegexFind "foo\n" = none ∧
    Sorts ⟨true⟩ ["foo\n"] = none := by
  constructor <;> rfl

/-- C8: `collectStatements` loses the first statement of the output:
when the first line starts with the keyword while the accumulator is
still empty, the line is dropped, so a single-rule listing yields an
empty result rather than that rule. -/
theorem rules_drops_first_statement :
    Rules ⟨true⟩ "" ["rl a => b .\n"] = [] ∧
    Rules ⟨true⟩ "" ["rl a => b .\n", "rl c => d .\n"] = [] := by
  constructor <;> decide

/-- C1 counterexample: `RawInput` on an inactive session does not
return the empty string (the claimed neutral zero value); it returns
the fixed string "inactive". -/
theorem rawInput_inactive_not_empty :
    RawInput ⟨false⟩ "" [] = "inactive" ∧ RawInput ⟨false⟩ "" [] ≠ "" := by
  constructor <;> decide

/-- C1 (amended): every modelled operation invoked on an inactive
session returns its neutral value without blocking or raising —
empty string for `CurrentModuleName`, the fixed string "inactive" for
`RawInput`, `false`/failure for `Load`, `Reduce`, `Parse` and
`StratParse`, and an empty list for listing operations (`Modules`,
`Sorts`, statement listings such as `Rules`). -/
theorem inactive_ops_neutral (c : MaudeState) (h : c.active = false)
    (src input term kw label : String) (lines : List String) (i : Interp)
    (red1 red2 : Interp → Interp × ReduceResult) :
    CurrentModuleName c lines = "" ∧
    RawInput c input lines = "inactive" ∧
    Load c src = false ∧
    (Reduce c term lines).Ok = false ∧
    (Parse c i red1 red2).1 = ⟨ParseOutcome.GenError, 0⟩ ∧
    (StratParse c i red1 red2).1 = ⟨ParseOutcome.GenError, 0⟩ ∧
    Modules c lines = [] ∧
    Sorts c lines = some [] ∧
    collectStatements c kw label lines = [] := by
  refine ⟨?_, ?_, ?_, ?_, ?_, ?_, ?_, ?_, ?_⟩
  · simp [CurrentModuleName, h]
  · simp [RawInput, h]
  · simp [Load, h]
  · simp [Reduce, reduce, h]
  · simp [Parse, h]
  · simp [StratParse, h]
  · simp [Modules, h]
  · simp [Sorts, h]
  · simp [collectStatements, h]

/-- Witness for `inactive_ops_neutral` at a concrete inactive state. -/
theorem inactive_ops_neutral_witness :
    CurrentModuleName ⟨false⟩ [] = "" ∧
    RawInput ⟨false⟩ "x" [] = "inactive" ∧
    Load ⟨false⟩ "f.maude" = false ∧
    (Reduce ⟨false⟩ "t" []).Ok = false ∧
    (Parse ⟨false⟩ ⟨"M"⟩ (fun j => (j, ⟨true, "", ""⟩))
      (fun j => (j, ⟨true, "", ""⟩))).1 = ⟨ParseOutcome.GenError, 0⟩ ∧
    (StratParse ⟨false⟩ ⟨"M"⟩ (fun j => (j, ⟨true, "", ""⟩))
      (fun j => (j, ⟨true, "", ""⟩))).1 = ⟨ParseOutcome.GenError, 0⟩ ∧
    Modules ⟨false⟩ [] = [] ∧
    Sorts ⟨false⟩ [] = some [] ∧
    collectStatements ⟨false⟩ "rl" "" [] = [] :=
  inactive_ops_neutral ⟨false⟩ rfl "f.maude" "x" "t" "rl" "" [] ⟨"M"⟩
    (fun j => (j, ⟨true, "", ""⟩)) (fun j => (j, ⟨true, "", ""⟩))

/-- C9: `Parse` and `StratParse` leave the caller-visible current
module unchanged on every return path — whatever the two chained
reductions do to the interpreter and whatever their outcomes, the
deferred `Select` of the entry module restores it. -/
theorem parse_preserves_current_module (c : MaudeState) (i : Interp)
    (red1 red2 red1' red2' : Interp → Interp × ReduceResult)
    (h : c.active = true) :
    (Parse c i red1 red2).2.currentModule = i.currentModule ∧
    (StratParse c i red1' red2').2.currentModule = i.currentModule := by
  constructor
  · unfold Parse
    rcases h1 : red1 i with ⟨i1, r1⟩
    rcases h2 : red2 i1 with ⟨i2, r2⟩
    simp only [h, h1, h2, Bool.true_eq_false, if_false]
    split
    · simp [select_currentModule c h, currentModuleAnswer, h]
    · split <;> simp [select_currentModule c h, currentModuleAnswer, h]
  · unfold StratParse
    rcases h1 : red1' i with ⟨i1, r1⟩
    rcases h2 : red2' i1 with ⟨i2, r2⟩
    simp only [h, h1, h2, Bool.true_eq_false, if_false]
    split
    · simp [select_currentModule c h, currentModuleAnswer, h]
    · split <;> simp [select_currentModule c h, currentModuleAnswer, h]

/-- Witness for `parse_preserves_current_module`: a failed tokenize
call for `Parse` and a successful no-parse classification for
`StratParse`, both against an active session on module "M". -/
theorem parse_preserves_current_module_witness :
    (Parse ⟨true⟩ ⟨"M"⟩ (fun _ => (⟨"JUNK"⟩, ⟨false, "", ""⟩))
      (fun j => (j, ⟨true, "t", "Term"⟩))).2.currentModule = "M" ∧
    (StratParse ⟨true⟩ ⟨"M"⟩ (fun j => (j, ⟨true, "tok", "TokenList"⟩))
      (fun j => (j, ⟨true, "noParse(4)", "Strategy?"⟩))).2.currentModule = "M" :=
  parse_preserves_current_module ⟨true⟩ ⟨"M"⟩
    (fun _ => (⟨"JUNK"⟩, ⟨false, "", ""⟩)) (fun j => (j, ⟨true, "t", "Term"⟩))
    (fun j => (j, ⟨true, "tok", "TokenList"⟩))
    (fun j => (j, ⟨true, "noParse(4)", "Strategy?"⟩)) rfl

end maude

namespace smcdump

/-- C10 counterexample -/
theorem hasSignature_depends_on_history :
    (HasSignature initialHeaderBuffer (some [])).1 = false ∧
    (HasSignature (HasSignature initialHeaderBuffer (some header)).2 (some [])).1 = true := by
  constructor <;> decide

/-- C10 amended -/
theorem hasSignature_pure_on_long_files (buffer content : List Nat)
    (hb : buffer.length = 11) (hc : 11 ≤ content.length) :
    (HasSignature buffer (some content)).1 = decide (content.take 11 = header) := by
  have hmin : min content.length 11 = 11 := by omega
  have hdrop : buffer.drop 11 = [] := by
    rw [← hb]; exact List.drop_length buffer
  simp [HasSignature, readInto, hb, hmin, hdrop]

/-- C3 -/
theorem read_error_leaves_handle_open :
    Read (some []) = (ReadExit.errNoMark, HandleState.stillOpen) ∧
    Read (some (header ++ [7])) = (ReadExit.errBadVersion, HandleState.stillOpen) := by
  constructor <;> decide

theorem byteAt_append_right (a b : List Nat) (i : Nat) :
    byteAt (a ++ b) (a.length + i) = byteAt b i := by
  induction a with
  | nil => simp [byteAt]
  | cons x xs ih =>
    have h2 : (x :: xs).length + i = (xs.length + i) + 1 := by
      simp [List.length_cons]; omega
    rw [h2]
    simpa [byteAt, List.getD] using ih

theorem le32n_length (u : Nat) : (le32n u).length = 4 := rfl

theorem le32i_length (v : Int) : (le32i v).length = 4 := rfl

theorem byteAt_le32n (u : Nat) (b : List Nat) :
    byteAt (le32n u ++ b) 0 = u % 256 ∧
    byteAt (le32n u ++ b) 1 = u / 256 % 256 ∧
    byteAt (le32n u ++ b) 2 = u / 65536 % 256 ∧
    byteAt (le32n u ++ b) 3 = u / 16777216 % 256 := by
  refine ⟨rfl, rfl, rfl, rfl⟩

theorem rd32_encode (a : List Nat) (v : Int) (b : List Nat)
    (h1 : -2147483648 ≤ v) (h2 : v < 2147483648) :
    rd32 (a ++ (le32i v ++ b)) a.length = v := by
  have hvmod : (0 : Int) ≤ v % 4294967296 ∧ v % 4294967296 < 4294967296 := by
    constructor
    · exact Int.emod_nonneg v (by norm_num)
    · exact Int.emod_lt_of_pos v (by norm_num)
  set u : Nat := (v % 4294967296).toNat with hu
  have hucast : (u : Int) = v % 4294967296 := Int.toNat_of_nonneg hvmod.1
  have hub : u < 4294967296 := by omega
  have hlen : (a ++ (le32i v ++ b)).length = a.length + (4 + b.length) := by
    simp [le32i_length]
  have hcond : a.length + 4 ≤ (a ++ (le32i v ++ b)).length := by omega
  have hb0 : (a ++ (le32i v ++ b)).getD (a.length + 0) 0 = u % 256 :=
    byteAt_append_right a _ 0
  have hb1 : (a ++ (le32i v ++ b)).getD (a.length + 1) 0 = u / 256 % 256 :=
    byteAt_append_right a _ 1
  have hb2 : (a ++ (le32i v ++ b)).getD (a.length + 2) 0 = u / 65536 % 256 :=
    byteAt_append_right a _ 2
  have hb3 : (a ++ (le32i v ++ b)).getD (a.length + 3) 0 = u / 16777216 % 256 :=
    byteAt_append_right a _ 3
  have hb0' : (a ++ (le32i v ++ b)).getD a.length 0 = u % 256 := by simpa using hb0
  rw [rd32, if_pos hcond]
  rw [hb0', hb1, hb2, hb3]
  have hrec : u % 256 % 256 + 256 * (u / 256 % 256 % 256) + 65536 * (u / 65536 % 256 % 256)
      + 16777216 * (u / 16777216 % 256 % 256) = u := by omega
  rw [hrec]
  show (if u < 2147483648 then (u : Int) else (u : Int) - 4294967296) = v
  by_cases hcase : u < 2147483648
  · rw [if_pos hcase]; omega
  · rw [if_neg hcase]; omega

theorem le32i_ofNat (u : Nat) (h : u < 4294967296) :
    le32i (u : Int) = le32n u := by
  unfold le32i
  congr 1
  have : ((u : Int) % 4294967296) = (u : Int) := by omega
  rw [this, Int.toNat_ofNat]

theorem rd32_encode_nat (a : List Nat) (u : Nat) (b : List Nat)
    (h : u < 2147483648) :
    rd32 (a ++ (le32n u ++ b)) a.length = (u : Int) := by
  have h4 : u < 4294967296 := by omega
  rw [← le32i_ofNat u h4]
  exact rd32_encode a (u : Int) b (by omega) (by exact_mod_cast h)

theorem readArrayM_succ (f : List Nat) (pos n : Nat) :
    readArrayM f pos (n + 1) = rd32 f pos :: readArrayM f (pos + 4) n := rfl

theorem readArrayM_encode (a : List Nat) (vs : List Int) (b : List Nat)
    (h : ∀ v ∈ vs, -2147483648 ≤ v ∧ v < 2147483648) :
    readArrayM (a ++ ((vs.map le32i).flatten ++ b)) a.length vs.length = vs := by
  induction vs generalizing a with
  | nil => rfl
  | cons v vs ih =>
    have hassoc : a ++ (((v :: vs).map le32i).flatten ++ b)
        = a ++ (le32i v ++ ((vs.map le32i).flatten ++ b)) := by
      simp [List.map_cons, List.flatten_cons, List.append_assoc]
    rw [hassoc, List.length_cons, readArrayM_succ]
    congr 1
    · exact rd32_encode a v _ (h v (by simp)).1 (h v (by simp)).2
    · have h2 := ih (a ++ le32i v) (fun w hw => h w (by simp [hw]))
      have hl : (a ++ le32i v).length = a.length + 4 := by simp [le32i_length]
      rw [hl, List.append_assoc] at h2
      exact h2

theorem readArrayM_encode_nat (a : List Nat) (us : List Nat) (b : List Nat)
    (h : ∀ u ∈ us, u < 2147483648) :
    readArrayM (a ++ ((us.map le32n).flatten ++ b)) a.length us.length
      = us.map Int.ofNat := by
  have hmap : us.map le32n = (us.map Int.ofNat).map le32i := by
    rw [List.map_map]
    refine List.map_congr_left (fun u hu => ?_)
    exact (le32i_ofNat u (by have := h u hu; omega)).symm
  have hlen : us.length = (us.map Int.ofNat).length := by simp
  rw [hmap, hlen]
  refine readArrayM_encode a _ b ?_
  intro v hv
  simp only [List.mem_map] at hv
  obtain ⟨u, hu, rfl⟩ := hv
  have := h u hu
  simp only [Int.ofNat_eq_natCast]
  constructor
  · omega
  · omega

theorem takeWhile_nonzero_append (s post : List Nat) (hs : ∀ x ∈ s, x ≠ 0) :
    (s ++ 0 :: post).takeWhile (fun b => b ≠ 0) = s := by
  induction s with
  | nil => simp
  | cons x xs ih =>
    have hx : x ≠ 0 := hs x (by simp)
    rw [List.cons_append, List.takeWhile_cons_of_pos (by simpa using hx)]
    rw [ih (fun y hy => hs y (by simp [hy]))]

theorem goReadString0_encode (a s post : List Nat) (hs : ∀ x ∈ s, x ≠ 0) :
    goReadString0 (a ++ (s ++ 0 :: post)) a.length
      = (s ++ [0], a.length + s.length + 1) := by
  have hdrop : (a ++ (s ++ 0 :: post)).drop a.length = s ++ 0 :: post :=
    List.drop_left a (s ++ 0 :: post)
  rw [goReadString0]
  rw [hdrop, takeWhile_nonzero_append s post hs]
  have hlt : s.length < (s ++ 0 :: post).length := by simp
  rw [if_pos hlt]

theorem goDropLast_eq (l : List Nat) (h : l ≠ []) :
    goDropLast l = some l.dropLast := by
  cases l with
  | nil => exact absurd rfl h
  | cons y ys => rfl

theorem goDropLast_concat_zero (s : List Nat) :
    goDropLast (s ++ [0]) = some s := by
  rw [goDropLast_eq _ (by simp), List.dropLast_concat]

theorem readInto_header (rest : List Nat) :
    readInto (List.replicate 11 0) (header ++ rest) = header := by
  have h1 : (header ++ rest).take 11 = header := List.take_left header rest
  have h2 : min (header ++ rest).length 11 = 11 := by
    simp [header]
  rw [readInto]
  simp only [List.length_replicate]
  rw [h1, h2]
  simp

theorem flatten_map_le32i_length (vs : List Int) :
    ((vs.map le32i).flatten).length = 4 * vs.length := by
  induction vs with
  | nil => rfl
  | cons v vs ih =>
    simp only [List.map_cons, List.flatten_cons, List.length_append, le32i_length, ih,
      List.length_cons]
    omega

theorem flatten_map_le32n_length (us : List Nat) :
    ((us.map le32n).flatten).length = 4 * us.length := by
  induction us with
  | nil => rfl
  | cons u us ih =>
    simp only [List.map_cons, List.flatten_cons, List.length_append, le32n_length, ih,
      List.length_cons]
    omega

theorem stringOffsets_length (base : Nat) (strs : List (List Nat)) :
    (stringOffsets base strs).length = strs.length + 1 := by
  induction strs generalizing base with
  | nil => rfl
  | cons s rest ih => simp [stringOffsets, ih]

theorem stringOffsets_le (base : Nat) (strs : List (List Nat)) :
    ∀ x ∈ stringOffsets base strs, x ≤ base + (strs.map List.length).sum := by
  induction strs generalizing base with
  | nil => intro x hx; simp [stringOffsets] at hx; omega
  | cons s rest ih =>
    intro x hx
    simp only [stringOffsets, List.mem_cons] at hx
    rcases hx with rfl | hx
    · simp
    · have := ih (base + s.length) x hx
      simp only [List.map_cons, List.sum_cons]
      omega

theorem rangeBytes_encode (a s post : List Nat) :
    (List.range s.length).map (fun j => (a ++ (s ++ post)).getD (a.length + j) 0) = s := by
  induction s generalizing a with
  | nil => rfl
  | cons x xs ih =>
    rw [List.length_cons, List.range_succ_eq_map, List.map_cons, List.map_map]
    congr 1
    · simpa [byteAt] using byteAt_append_right a (x :: (xs ++ post)) 0
    · have h2 := ih (a ++ [x])
      have hl : (a ++ [x]).length = a.length + 1 := by simp
      have ha : (a ++ [x]) ++ (xs ++ post) = a ++ (x :: xs ++ post) := by
        simp [List.append_assoc]
      rw [hl, ha] at h2
      refine Eq.trans (List.map_congr_left (fun j _ => ?_)) h2
      simp only [Function.comp]
      congr 1
      omega

theorem readTail_encode (a : List Nat) (sidx : List Int) (sdata : List Nat)
    (strs : List (List Nat)) (t l : List Nat) (pathL cycleL : List Int)
    (hsidx : ∀ v ∈ sidx, -2147483648 ≤ v ∧ v < 2147483648)
    (hstrs : strs.length < 2147483648)
    (htab : a.length + 4 * sidx.length + 4 + sdata.length
        + (strs.map List.length).sum < 2147483648) :
    readTail
      (a ++ ((sidx.map le32i).flatten
        ++ (le32n (a.length + 4 * sidx.length + 4 + sdata.length
              + (strs.map List.length).sum)
          ++ (sdata ++ (strs.flatten
            ++ (le32n strs.length
              ++ ((stringOffsets (a.length + 4 * sidx.length + 4 + sdata.length)
                    strs).map le32n).flatten))))))
      pathL cycleL t l sidx.length a.length
      = ReadExit.ok ⟨pathL, cycleL, t, l, sidx,
          (stringOffsets (a.length + 4 * sidx.length + 4 + sdata.length)
            strs).map Int.ofNat⟩ := by
  set runStart := a.length + 4 * sidx.length + 4 + sdata.length with hrs
  set tableOff := runStart + (strs.map List.length).sum with hto
  set offs := stringOffsets runStart strs with hoffs
  set f := a ++ ((sidx.map le32i).flatten
        ++ (le32n tableOff ++ (sdata ++ (strs.flatten
            ++ (le32n strs.length ++ (offs.map le32n).flatten))))) with hf
  have hq1 : ((sidx.map le32i).flatten).length = 4 * sidx.length :=
    flatten_map_le32i_length sidx
  have hq2 : (strs.flatten).length = (strs.map List.length).sum :=
    List.length_flatten strs
  have h1 : readArrayM f a.length sidx.length = sidx :=
    readArrayM_encode a sidx _ hsidx
  -- the table pointer, read just after the states index
  have ha2 : (a ++ (sidx.map le32i).flatten).length = a.length + 4 * sidx.length := by
    simp only [List.length_append, hq1]
  have hf2 : f = (a ++ (sidx.map le32i).flatten)
      ++ (le32n tableOff ++ (sdata ++ (strs.flatten
          ++ (le32n strs.length ++ (offs.map le32n).flatten)))) := by
    rw [hf, List.append_assoc]
  have h2' := rd32_encode_nat (a ++ (sidx.map le32i).flatten) tableOff
    (sdata ++ (strs.flatten ++ (le32n strs.length ++ (offs.map le32n).flatten)))
    (by omega)
  rw [ha2] at h2'
  have h2 : rd32 f (a.length + 4 * sidx.length) = (tableOff : Int) := by
    rw [hf2]; exact h2'
  -- the string count, read at the absolute table offset
  have ha3 : ((((a ++ (sidx.map le32i).flatten) ++ le32n tableOff) ++ sdata)
      ++ strs.flatten).length = tableOff := by
    simp only [List.length_append, hq1, hq2, le32n_length]
  have hf3 : f = (((((a ++ (sidx.map le32i).flatten) ++ le32n tableOff) ++ sdata)
      ++ strs.flatten)) ++ (le32n strs.length ++ (offs.map le32n).flatten) := by
    rw [hf]; simp [List.append_assoc]
  have h3' := rd32_encode_nat ((((a ++ (sidx.map le32i).flatten) ++ le32n tableOff)
      ++ sdata) ++ strs.flatten) strs.length ((offs.map le32n).flatten) hstrs
  rw [ha3] at h3'
  have h3 : rd32 f tableOff = (strs.length : Int) := by
    rw [hf3]; exact h3'
  -- the string-offset table, read just after the count
  have ha4 : (((((a ++ (sidx.map le32i).flatten) ++ le32n tableOff) ++ sdata)
      ++ strs.flatten) ++ le32n strs.length).length = tableOff + 4 := by
    simp only [List.length_append, le32n_length, ha3]
  have hf4 : f = ((((((a ++ (sidx.map le32i).flatten) ++ le32n tableOff) ++ sdata)
      ++ strs.flatten) ++ le32n strs.length)) ++ ((offs.map le32n).flatten ++ []) := by
    rw [hf]; simp [List.append_assoc]
  have h4' := readArrayM_encode_nat (((((a ++ (sidx.map le32i).flatten)
      ++ le32n tableOff) ++ sdata) ++ strs.flatten) ++ le32n strs.length) offs []
    (fun u hu => by
      have := stringOffsets_le runStart strs u (hoffs ▸ hu)
      omega)
  rw [ha4] at h4'
  have h4 : readArrayM f (tableOff + 4) offs.length = offs.map Int.ofNat := by
    rw [hf4]; exact h4'
  rw [readTail]
  rw [h1, h2]
  have hsOff : ((tableOff : Int)).toNat = tableOff := Int.toNat_ofNat tableOff
  rw [hsOff, h3]
  rw [if_neg (by omega)]
  have hcount : ((strs.length : Int) + 1).toNat = offs.length := by
    rw [hoffs, stringOffsets_length]
    omega
  rw [hcount, h4]

/-- `encodeDump` rewritten as front-part plus tail (definitional). -/
theorem encodeDump_eq (t l : List Nat) (ctr : Option (List Int × List Int))
    (sidx : List Int) (sdata : List Nat) (strs : List (List Nat)) :
    encodeDump t l ctr sidx sdata strs
      = encodeFront t l ctr sidx
        ++ le32n ((encodeFront t l ctr sidx).length + 4 + sdata.length
            + (strs.map List.length).sum)
        ++ sdata ++ strs.flatten ++ le32n strs.length
        ++ ((stringOffsets ((encodeFront t l ctr sidx).length + 4 + sdata.length)
              strs).map le32n).flatten := rfl

set_option maxHeartbeats 2000000 in
theorem read_encode_none (t l : List Nat)
    (sidx : List Int) (sdata : List Nat) (strs : List (List Nat))
    (ht : ∀ x ∈ t, x ≠ 0) (hl : ∀ x ∈ l, x ≠ 0)
    (hsidx : ∀ v ∈ sidx, -2147483648 ≤ v ∧ v < 2147483648)
    (hns : sidx.length < 2147483648)
    (hstrs : strs.length < 2147483648)
    (htab : (encodeFront t l none sidx).length + 4 + sdata.length
        + (strs.map List.length).sum < 2147483648) :
    Read (some (encodeDump t l none sidx sdata strs)) =
      (ReadExit.ok ⟨[], [], t, l, sidx,
        (stringOffsets ((encodeFront t l none sidx).length + 4 + sdata.length)
          strs).map Int.ofNat⟩,
       HandleState.stillOpen) := by
  set F : List Nat := encodeDump t l none sidx sdata strs with hF
  set base : Nat := (encodeFront t l none sidx).length + 4 + sdata.length with hbase
  set TO : Nat := base + (strs.map List.length).sum with hTO
  set offsBytes : List Nat := ((stringOffsets base strs).map le32n).flatten with hOB
  clear_value F base TO offsBytes
  -- the file, right-associated with explicit separator bytes
  have hfshape : F = header ++ (0 :: (t ++ (0 :: (l ++ (0 :: (0 :: (le32n sidx.length
      ++ ((sidx.map le32i).flatten ++ (le32n TO ++ (sdata ++ (strs.flatten
        ++ (le32n strs.length ++ offsBytes)))))))))))) := by
    rw [hF, encodeDump_eq]
    rw [← hbase, ← hTO, ← hOB]
    simp only [encodeFront]
    simp only [List.append_assoc, List.cons_append, List.singleton_append,
      List.nil_append]
  have hmark : readInto (List.replicate 11 0) F = header := by
    rw [hfshape]; exact readInto_header _
  have hver : F.getD 11 0 = 0 := by
    rw [hfshape]
    have h0 := byteAt_append_right header (0 :: (t ++ (0 :: (l ++ (0 :: (0 ::
      (le32n sidx.length ++ ((sidx.map le32i).flatten ++ (le32n TO ++ (sdata
        ++ (strs.flatten ++ (le32n strs.length ++ offsBytes)))))))))))) 0
    simp only [byteAt, header] at h0
    exact h0
  set p1 : Nat := 12 + t.length + 1 with hp1
  set p2 : Nat := p1 + l.length + 1 with hp2
  clear_value p1 p2
  have hread1 : goReadString0 F 12 = (t ++ [0], p1) := by
    have e : F = (header ++ [0]) ++ (t ++ 0 :: (l ++ (0 :: (0 :: (le32n sidx.length
        ++ ((sidx.map le32i).flatten ++ (le32n TO ++ (sdata ++ (strs.flatten
          ++ (le32n strs.length ++ offsBytes)))))))))) := by
      rw [hfshape]; simp [List.append_assoc]
    rw [e]
    have h12 : (header ++ [0] : List Nat).length = 12 := rfl
    have hh := goReadString0_encode (header ++ [0]) t
      (l ++ (0 :: (0 :: (le32n sidx.length ++ ((sidx.map le32i).flatten
        ++ (le32n TO ++ (sdata ++ (strs.flatten
          ++ (le32n strs.length ++ offsBytes))))))))) ht
    rw [h12] at hh
    rw [hp1]
    exact hh
  have hread2 : goReadString0 F p1 = (l ++ [0], p2) := by
    have e : F = (header ++ [0] ++ t ++ [0]) ++ (l ++ 0 :: (0 :: (le32n sidx.length
        ++ ((sidx.map le32i).flatten ++ (le32n TO ++ (sdata ++ (strs.flatten
          ++ (le32n strs.length ++ offsBytes)))))))) := by
      rw [hfshape]; simp [List.append_assoc]
    have hlen : (header ++ [0] ++ t ++ [0] : List Nat).length = p1 := by
      simp [header, hp1]; omega
    have hh := goReadString0_encode (header ++ [0] ++ t ++ [0]) l
      (0 :: (le32n sidx.length ++ ((sidx.map le32i).flatten
        ++ (le32n TO ++ (sdata ++ (strs.flatten
          ++ (le32n strs.length ++ offsBytes))))))) hl
    rw [hlen] at hh
    rw [e, hp2]
    exact hh
  have hhb : F.getD p2 0 = 0 := by
    have e : F = (header ++ [0] ++ t ++ [0] ++ l ++ [0]) ++ (0 :: (le32n sidx.length
        ++ ((sidx.map le32i).flatten ++ (le32n TO ++ (sdata ++ (strs.flatten
          ++ (le32n strs.length ++ offsBytes))))))) := by
      rw [hfshape]; simp [List.append_assoc]
    have hlen : (header ++ [0] ++ t ++ [0] ++ l ++ [0] : List Nat).length = p2 := by
      simp [header, hp1, hp2]; omega
    have hh := byteAt_append_right (header ++ [0] ++ t ++ [0] ++ l ++ [0])
      (0 :: (le32n sidx.length ++ ((sidx.map le32i).flatten ++ (le32n TO
        ++ (sdata ++ (strs.flatten ++ (le32n strs.length ++ offsBytes))))))) 0
    rw [hlen] at hh
    rw [e]
    simpa [byteAt] using hh
  have hns32 : rd32 F (p2 + 1) = (sidx.length : Int) := by
    have e : F = (header ++ [0] ++ t ++ [0] ++ l ++ [0] ++ [0])
        ++ (le32n sidx.length ++ ((sidx.map le32i).flatten ++ (le32n TO
          ++ (sdata ++ (strs.flatten ++ (le32n strs.length ++ offsBytes)))))) := by
      rw [hfshape]; simp [List.append_assoc]
    have hlen : (header ++ [0] ++ t ++ [0] ++ l ++ [0] ++ [0] : List Nat).length
        = p2 + 1 := by
      simp [header, hp1, hp2]; omega
    have hh := rd32_encode_nat (header ++ [0] ++ t ++ [0] ++ l ++ [0] ++ [0])
      sidx.length ((sidx.map le32i).flatten ++ (le32n TO
        ++ (sdata ++ (strs.flatten ++ (le32n strs.length ++ offsBytes))))) hns
    rw [hlen] at hh
    rw [e]
    exact hh
  have hq1 : ((sidx.map le32i).flatten).length = 4 * sidx.length :=
    flatten_map_le32i_length sidx
  have hA2 : (header ++ [0] ++ t ++ [0] ++ l ++ [0] ++ [0]
      ++ le32n sidx.length : List Nat).length = p2 + 5 := by
    simp [header, hp1, hp2, le32n_length]; omega
  have hFL : (encodeFront t l none sidx).length
      = (header ++ [0] ++ t ++ [0] ++ l ++ [0] ++ [0]
          ++ le32n sidx.length : List Nat).length + 4 * sidx.length := by
    simp only [encodeFront]
    simp only [List.length_append, hq1, List.length_cons, List.length_nil,
      List.length_singleton, le32n_length]
  have hb' : (header ++ [0] ++ t ++ [0] ++ l ++ [0] ++ [0]
      ++ le32n sidx.length : List Nat).length + 4 * sidx.length + 4 + sdata.length
      = base := by
    rw [hbase, hFL]
  have htail : readTail F [] [] t l sidx.length (p2 + 5)
      = ReadExit.ok ⟨[], [], t, l, sidx, (stringOffsets base strs).map Int.ofNat⟩ := by
    have e : F = (header ++ [0] ++ t ++ [0] ++ l ++ [0] ++ [0] ++ le32n sidx.length)
        ++ ((sidx.map le32i).flatten ++ (le32n TO ++ (sdata ++ (strs.flatten
          ++ (le32n strs.length ++ offsBytes))))) := by
      rw [hfshape]; simp [List.append_assoc]
    have inst := readTail_encode (header ++ [0] ++ t ++ [0] ++ l ++ [0] ++ [0]
        ++ le32n sidx.length) sidx sdata strs t l [] [] hsidx hstrs
      (by rw [hb']; omega)
    rw [hb'] at inst
    rw [← hTO, ← hOB] at inst
    rw [hA2] at inst
    rw [e]
    exact inst
  simp only [Read, hmark, hver, hread1, hread2, goDropLast_concat_zero, hhb, hns32,
    Int.toNat_natCast]
  rw [if_neg (fun h => h rfl), if_neg (fun h => h rfl), if_pos trivial,
    if_neg (by omega : ¬((sidx.length : Int) < 0)), htail]

set_option maxHeartbeats 2000000 in
theorem read_encode_counter (t l : List Nat) (pth cyc : List Int)
    (sidx : List Int) (sdata : List Nat) (strs : List (List Nat))
    (ht : ∀ x ∈ t, x ≠ 0) (hl : ∀ x ∈ l, x ≠ 0)
    (hsidx : ∀ v ∈ sidx, -2147483648 ≤ v ∧ v < 2147483648)
    (hns : sidx.length < 2147483648)
    (hpv : ∀ v ∈ pth, -2147483648 ≤ v ∧ v < 2147483648)
    (hcv : ∀ v ∈ cyc, -2147483648 ≤ v ∧ v < 2147483648)
    (hpl : pth.length < 2147483648) (hcl : cyc.length < 2147483648)
    (hstrs : strs.length < 2147483648)
    (htab : (encodeFront t l (some (pth, cyc)) sidx).length + 4 + sdata.length
        + (strs.map List.length).sum < 2147483648) :
    Read (some (encodeDump t l (some (pth, cyc)) sidx sdata strs)) =
      (ReadExit.ok ⟨pth, cyc, t, l, sidx,
        (stringOffsets ((encodeFront t l (some (pth, cyc)) sidx).length + 4
          + sdata.length) strs).map Int.ofNat⟩,
       HandleState.stillOpen) := by
  set F : List Nat := encodeDump t l (some (pth, cyc)) sidx sdata strs with hF
  set base : Nat := (encodeFront t l (some (pth, cyc)) sidx).length + 4 + sdata.length
    with hbase
  set TO : Nat := base + (strs.map List.length).sum with hTO
  set offsBytes : List Nat := ((stringOffsets base strs).map le32n).flatten with hOB
  clear_value F base TO offsBytes
  -- the file, right-associated with explicit separator bytes
  have hfshape : F = header ++ (0 :: (t ++ (0 :: (l ++ (0 :: (1 :: (le32n sidx.length
      ++ (le32n pth.length ++ ((pth.map le32i).flatten ++ (le32n cyc.length
        ++ ((cyc.map le32i).flatten
          ++ ((sidx.map le32i).flatten ++ (le32n TO ++ (sdata ++ (strs.flatten
            ++ (le32n strs.length ++ offsBytes)))))))))))))))) := by
    rw [hF, encodeDump_eq]
    rw [← hbase, ← hTO, ← hOB]
    simp only [encodeFront]
    simp only [List.append_assoc, List.cons_append, List.singleton_append,
      List.nil_append]
  have hmark : readInto (List.replicate 11 0) F = header := by
    rw [hfshape]; exact readInto_header _
  have hver : F.getD 11 0 = 0 := by
    rw [hfshape]
    have h0 := byteAt_append_right header (0 :: (t ++ (0 :: (l ++ (0 :: (1 ::
      (le32n sidx.length ++ (le32n pth.length ++ ((pth.map le32i).flatten
        ++ (le32n cyc.length ++ ((cyc.map le32i).flatten
          ++ ((sidx.map le32i).flatten ++ (le32n TO ++ (sdata ++ (strs.flatten
            ++ (le32n strs.length ++ offsBytes)))))))))))))))) 0
    simp only [byteAt, header] at h0
    exact h0
  set p1 : Nat := 12 + t.length + 1 with hp1
  set p2 : Nat := p1 + l.length + 1 with hp2
  clear_value p1 p2
  set REST : List Nat := le32n sidx.length ++ (le32n pth.length
      ++ ((pth.map le32i).flatten ++ (le32n cyc.length ++ ((cyc.map le32i).flatten
        ++ ((sidx.map le32i).flatten ++ (le32n TO ++ (sdata ++ (strs.flatten
          ++ (le32n strs.length ++ offsBytes))))))))) with hREST
  have hread1 : goReadString0 F 12 = (t ++ [0], p1) := by
    have e : F = (header ++ [0]) ++ (t ++ 0 :: (l ++ (0 :: (1 :: REST)))) := by
      rw [hfshape, hREST]; simp [List.append_assoc]
    rw [e]
    have h12 : (header ++ [0] : List Nat).length = 12 := rfl
    have hh := goReadString0_encode (header ++ [0]) t
      (l ++ (0 :: (1 :: REST))) ht
    rw [h12] at hh
    rw [hp1]
    exact hh
  have hread2 : goReadString0 F p1 = (l ++ [0], p2) := by
    have e : F = (header ++ [0] ++ t ++ [0]) ++ (l ++ 0 :: (1 :: REST)) := by
      rw [hfshape, hREST]; simp [List.append_assoc]
    have hlen : (header ++ [0] ++ t ++ [0] : List Nat).length = p1 := by
      simp [header, hp1]; omega
    have hh := goReadString0_encode (header ++ [0] ++ t ++ [0]) l (1 :: REST) hl
    rw [hlen] at hh
    rw [e, hp2]
    exact hh
  have hhb : F.getD p2 0 = 1 := by
    have e : F = (header ++ [0] ++ t ++ [0] ++ l ++ [0]) ++ (1 :: REST) := by
      rw [hfshape, hREST]; simp [List.append_assoc]
    have hlen : (header ++ [0] ++ t ++ [0] ++ l ++ [0] : List Nat).length = p2 := by
      simp [header, hp1, hp2]; omega
    have hh := byteAt_append_right (header ++ [0] ++ t ++ [0] ++ l ++ [0])
      (1 :: REST) 0
    rw [hlen] at hh
    rw [e]
    simpa [byteAt] using hh
  have hns32 : rd32 F (p2 + 1) = (sidx.length : Int) := by
    have e : F = (header ++ [0] ++ t ++ [0] ++ l ++ [0] ++ [1])
        ++ (le32n sidx.length ++ (le32n pth.length ++ ((pth.map le32i).flatten
          ++ (le32n cyc.length ++ ((cyc.map le32i).flatten
            ++ ((sidx.map le32i).flatten ++ (le32n TO ++ (sdata ++ (strs.flatten
              ++ (le32n strs.length ++ offsBytes)))))))))) := by
      rw [hfshape]; simp [List.append_assoc]
    have hlen : (header ++ [0] ++ t ++ [0] ++ l ++ [0] ++ [1] : List Nat).length
        = p2 + 1 := by
      simp [header, hp1, hp2]; omega
    have hh := rd32_encode_nat (header ++ [0] ++ t ++ [0] ++ l ++ [0] ++ [1])
      sidx.length (le32n pth.length ++ ((pth.map le32i).flatten
        ++ (le32n cyc.length ++ ((cyc.map le32i).flatten
          ++ ((sidx.map le32i).flatten ++ (le32n TO ++ (sdata ++ (strs.flatten
            ++ (le32n strs.length ++ offsBytes))))))))) hns
    rw [hlen] at hh
    rw [e]
    exact hh
  have hps : rd32 F (p2 + 5) = (pth.length : Int) := by
    have e : F = (header ++ [0] ++ t ++ [0] ++ l ++ [0] ++ [1] ++ le32n sidx.length)
        ++ (le32n pth.length ++ ((pth.map le32i).flatten
          ++ (le32n cyc.length ++ ((cyc.map le32i).flatten
            ++ ((sidx.map le32i).flatten ++ (le32n TO ++ (sdata ++ (strs.flatten
              ++ (le32n strs.length ++ offsBytes))))))))) := by
      rw [hfshape]; simp [List.append_assoc]
    have hlen : (header ++ [0] ++ t ++ [0] ++ l ++ [0] ++ [1]
        ++ le32n sidx.length : List Nat).length = p2 + 5 := by
      simp [header, hp1, hp2, le32n_length]; omega
    have hh := rd32_encode_nat (header ++ [0] ++ t ++ [0] ++ l ++ [0] ++ [1]
        ++ le32n sidx.length) pth.length ((pth.map le32i).flatten
          ++ (le32n cyc.length ++ ((cyc.map le32i).flatten
            ++ ((sidx.map le32i).flatten ++ (le32n TO ++ (sdata ++ (strs.flatten
              ++ (le32n strs.length ++ offsBytes)))))))) hpl
    rw [hlen] at hh
    rw [e]
    exact hh
  have hparr : readArrayM F (p2 + 5 + 4) pth.length = pth := by
    have e : F = (header ++ [0] ++ t ++ [0] ++ l ++ [0] ++ [1] ++ le32n sidx.length
        ++ le32n pth.length)
        ++ ((pth.map le32i).flatten
          ++ (le32n cyc.length ++ ((cyc.map le32i).flatten
            ++ ((sidx.map le32i).flatten ++ (le32n TO ++ (sdata ++ (strs.flatten
              ++ (le32n strs.length ++ offsBytes))))))))  := by
      rw [hfshape]; simp [List.append_assoc]
    have hlen : (header ++ [0] ++ t ++ [0] ++ l ++ [0] ++ [1] ++ le32n sidx.length
        ++ le32n pth.length : List Nat).length = p2 + 5 + 4 := by
      simp [header, hp1, hp2, le32n_length]; omega
    have hh := readArrayM_encode (header ++ [0] ++ t ++ [0] ++ l ++ [0] ++ [1]
        ++ le32n sidx.length ++ le32n pth.length) pth
      (le32n cyc.length ++ ((cyc.map le32i).flatten
        ++ ((sidx.map le32i).flatten ++ (le32n TO ++ (sdata ++ (strs.flatten
          ++ (le32n strs.length ++ offsBytes))))))) hpv
    rw [hlen] at hh
    rw [e]
    exact hh
  have hq2 : ((pth.map le32i).flatten).length = 4 * pth.length :=
    flatten_map_le32i_length pth
  have hcs : rd32 F (p2 + 5 + 4 + 4 * pth.length) = (cyc.length : Int) := by
    have e : F = (header ++ [0] ++ t ++ [0] ++ l ++ [0] ++ [1] ++ le32n sidx.length
        ++ le32n pth.length ++ (pth.map le32i).flatten)
        ++ (le32n cyc.length ++ ((cyc.map le32i).flatten
            ++ ((sidx.map le32i).flatten ++ (le32n TO ++ (sdata ++ (strs.flatten
              ++ (le32n strs.length ++ offsBytes))))))) := by
      rw [hfshape]; simp [List.append_assoc]
    have hlen : (header ++ [0] ++ t ++ [0] ++ l ++ [0] ++ [1] ++ le32n sidx.length
        ++ le32n pth.length ++ (pth.map le32i).flatten : List Nat).length
        = p2 + 5 + 4 + 4 * pth.length := by
      simp [header, hp1, hp2, le32n_length, hq2]; omega
    have hh := rd32_encode_nat (header ++ [0] ++ t ++ [0] ++ l ++ [0] ++ [1]
        ++ le32n sidx.length ++ le32n pth.length ++ (pth.map le32i).flatten)
      cyc.length ((cyc.map le32i).flatten
            ++ ((sidx.map le32i).flatten ++ (le32n TO ++ (sdata ++ (strs.flatten
              ++ (le32n strs.length ++ offsBytes)))))) hcl
    rw [hlen] at hh
    rw [e]
    exact hh
  have hcarr : readArrayM F (p2 + 5 + 4 + 4 * pth.length + 4) cyc.length = cyc := by
    have e : F = (header ++ [0] ++ t ++ [0] ++ l ++ [0] ++ [1] ++ le32n sidx.length
        ++ le32n pth.length ++ (pth.map le32i).flatten ++ le32n cyc.length)
        ++ ((cyc.map le32i).flatten
            ++ ((sidx.map le32i).flatten ++ (le32n TO ++ (sdata ++ (strs.flatten
              ++ (le32n strs.length ++ offsBytes)))))) := by
      rw [hfshape]; simp [List.append_assoc]
    have hlen : (header ++ [0] ++ t ++ [0] ++ l ++ [0] ++ [1] ++ le32n sidx.length
        ++ le32n pth.length ++ (pth.map le32i).flatten
        ++ le32n cyc.length : List Nat).length
        = p2 + 5 + 4 + 4 * pth.length + 4 := by
      simp [header, hp1, hp2, le32n_length, hq2]; omega
    have hh := readArrayM_encode (header ++ [0] ++ t ++ [0] ++ l ++ [0] ++ [1]
        ++ le32n sidx.length ++ le32n pth.length ++ (pth.map le32i).flatten
        ++ le32n cyc.length) cyc
      ((sidx.map le32i).flatten ++ (le32n TO ++ (sdata ++ (strs.flatten
              ++ (le32n strs.length ++ offsBytes))))) hcv
    rw [hlen] at hh
    rw [e]
    exact hh
  have hq3 : ((cyc.map le32i).flatten).length = 4 * cyc.length :=
    flatten_map_le32i_length cyc
  have hA2 : (header ++ [0] ++ t ++ [0] ++ l ++ [0] ++ [1] ++ le32n sidx.length
      ++ le32n pth.length ++ (pth.map le32i).flatten ++ le32n cyc.length
      ++ (cyc.map le32i).flatten : List Nat).length
      = p2 + 5 + 4 + 4 * pth.length + 4 + 4 * cyc.length := by
    simp [header, hp1, hp2, le32n_length, hq2, hq3]; omega
  have hq1 : ((sidx.map le32i).flatten).length = 4 * sidx.length :=
    flatten_map_le32i_length sidx
  have hFL : (encodeFront t l (some (pth, cyc)) sidx).length
      = (header ++ [0] ++ t ++ [0] ++ l ++ [0] ++ [1] ++ le32n sidx.length
        ++ le32n pth.length ++ (pth.map le32i).flatten ++ le32n cyc.length
        ++ (cyc.map le32i).flatten : List Nat).length + 4 * sidx.length := by
    simp only [encodeFront]
    simp only [List.length_append, hq1, hq2, hq3, List.length_cons, List.length_nil,
      List.length_singleton, le32n_length]
    omega
  have hb' : (header ++ [0] ++ t ++ [0] ++ l ++ [0] ++ [1] ++ le32n sidx.length
      ++ le32n pth.length ++ (pth.map le32i).flatten ++ le32n cyc.length
      ++ (cyc.map le32i).flatten : List Nat).length + 4 * sidx.length + 4 + sdata.length
      = base := by
    rw [hbase, hFL]
  have htail : readTail F pth cyc t l sidx.length
      (p2 + 5 + 4 + 4 * pth.length + 4 + 4 * cyc.length)
      = ReadExit.ok ⟨pth, cyc, t, l, sidx, (stringOffsets base strs).map Int.ofNat⟩ := by
    have e : F = (header ++ [0] ++ t ++ [0] ++ l ++ [0] ++ [1] ++ le32n sidx.length
        ++ le32n pth.length ++ (pth.map le32i).flatten ++ le32n cyc.length
        ++ (cyc.map le32i).flatten)
        ++ ((sidx.map le32i).flatten ++ (le32n TO ++ (sdata ++ (strs.flatten
          ++ (le32n strs.length ++ offsBytes))))) := by
      rw [hfshape]; simp [List.append_assoc]
    have inst := readTail_encode (header ++ [0] ++ t ++ [0] ++ l ++ [0] ++ [1]
        ++ le32n sidx.length ++ le32n pth.length ++ (pth.map le32i).flatten
        ++ le32n cyc.length ++ (cyc.map le32i).flatten) sidx sdata strs t l pth cyc
      hsidx hstrs (by rw [hb']; omega)
    rw [hb'] at inst
    rw [← hTO, ← hOB] at inst
    rw [hA2] at inst
    rw [e]
    exact inst
  simp only [Read, hmark, hver, hread1, hread2, goDropLast_concat_zero, hhb, hns32,
    hps, hparr, hcs, hcarr, Int.toNat_natCast]
  rw [if_neg (fun h => h rfl), if_neg (fun h => h rfl), if_neg (by omega : ¬(1 = 0)),
    if_neg (by omega : ¬((pth.length : Int) < 0)),
    if_neg (by omega : ¬((cyc.length : Int) < 0)),
    if_neg (by omega : ¬((sidx.length : Int) < 0)), htail]

theorem stringOffsets_getD_zero (b : Nat) (strs : List (List Nat)) :
    (stringOffsets b strs).getD 0 0 = b := by
  cases strs <;> rfl

theorem getString_core (a : List Nat) (strs : List (List Nat)) (post : List Nat)
    (i : Nat) (hi : i < strs.length) :
    (List.range ((((stringOffsets a.length strs).map Int.ofNat).getD (i + 1) 0
        - ((stringOffsets a.length strs).map Int.ofNat).getD i 0).toNat)).map
      (fun j => (a ++ (strs.flatten ++ post)).getD
        (((((stringOffsets a.length strs).map Int.ofNat).getD i 0).toNat) + j) 0)
      = strs.get ⟨i, hi⟩ := by
  induction strs generalizing a i with
  | nil => exact absurd hi (by simp)
  | cons str rest ih =>
    cases i with
    | zero =>
      have hoffs : (stringOffsets a.length (str :: rest)).map Int.ofNat
          = Int.ofNat a.length
            :: (stringOffsets (a.length + str.length) rest).map Int.ofNat := rfl
      rw [hoffs]
      have hgd0 : (Int.ofNat a.length
          :: (stringOffsets (a.length + str.length) rest).map Int.ofNat).getD 0 0
          = Int.ofNat a.length := rfl
      have hgd1 : (Int.ofNat a.length
          :: (stringOffsets (a.length + str.length) rest).map Int.ofNat).getD 1 0
          = Int.ofNat (a.length + str.length) := by
        show ((stringOffsets (a.length + str.length) rest).map Int.ofNat).getD 0 0
          = Int.ofNat (a.length + str.length)
        cases rest <;> rfl
      rw [hgd0, hgd1]
      have hlen : ((Int.ofNat (a.length + str.length) - Int.ofNat a.length)).toNat
          = str.length := by
        simp only [Int.ofNat_eq_natCast]
        omega
      have htoNat : ((Int.ofNat a.length)).toNat = a.length := by
        simp [Int.ofNat_eq_natCast]
      rw [hlen, htoNat]
      have hassoc : a ++ ((str :: rest).flatten ++ post)
          = a ++ (str ++ (rest.flatten ++ post)) := by
        simp [List.flatten_cons, List.append_assoc]
      rw [hassoc]
      exact rangeBytes_encode a str (rest.flatten ++ post)
    | succ i =>
      have hoffs : (stringOffsets a.length (str :: rest)).map Int.ofNat
          = Int.ofNat a.length
            :: (stringOffsets (a.length + str.length) rest).map Int.ofNat := rfl
      rw [hoffs]
      have hgds : ∀ k, (Int.ofNat a.length
          :: (stringOffsets (a.length + str.length) rest).map Int.ofNat).getD (k + 1) 0
          = ((stringOffsets (a.length + str.length) rest).map Int.ofNat).getD k 0 :=
        fun k => rfl
      rw [hgds, hgds]
      have hrest : i < rest.length := by
        simpa using hi
      have hh := ih (a ++ str) i hrest
      have hla : (a ++ str).length = a.length + str.length := by simp
      have hassoc : (a ++ str) ++ (rest.flatten ++ post)
          = a ++ ((str :: rest).flatten ++ post) := by
        simp [List.flatten_cons, List.append_assoc]
      rw [hla, hassoc] at hh
      rw [hh]
      rfl

theorem propertyHolds_iff_empty_cycle (t l : List Nat) (pth cyc : List Int)
    (sidx : List Int) (sdata : List Nat) (strs : List (List Nat))
    (ht : ∀ x ∈ t, x ≠ 0) (hl : ∀ x ∈ l, x ≠ 0)
    (hsidx : ∀ v ∈ sidx, -2147483648 ≤ v ∧ v < 2147483648)
    (hns : sidx.length < 2147483648)
    (hpv : ∀ v ∈ pth, -2147483648 ≤ v ∧ v < 2147483648)
    (hcv : ∀ v ∈ cyc, -2147483648 ≤ v ∧ v < 2147483648)
    (hpl : pth.length < 2147483648) (hcl : cyc.length < 2147483648)
    (hstrs : strs.length < 2147483648)
    (htab : (encodeFront t l (some (pth, cyc)) sidx).length + 4 + sdata.length
        + (strs.map List.length).sum < 2147483648)
    (hcyc : cyc ≠ []) :
    (∀ d : SmcDumpData, PropertyHolds d = true ↔ d.cycle.length = 0) ∧
    (∃ d, Read (some (encodeDump t l (some (pth, cyc)) sidx sdata strs))
        = (ReadExit.ok d, HandleState.stillOpen)
      ∧ d.cycle = cyc ∧ PropertyHolds d = false) := by
  constructor
  · intro d
    simp [PropertyHolds]
  · refine ⟨_, read_encode_counter t l pth cyc sidx sdata strs ht hl hsidx hns
      hpv hcv hpl hcl hstrs htab, rfl, ?_⟩
    simp [PropertyHolds]
    exact hcyc

theorem getString_roundtrip (t l : List Nat)
    (sidx : List Int) (sdata : List Nat) (strs : List (List Nat))
    (ht : ∀ x ∈ t, x ≠ 0) (hl : ∀ x ∈ l, x ≠ 0)
    (hsidx : ∀ v ∈ sidx, -2147483648 ≤ v ∧ v < 2147483648)
    (hns : sidx.length < 2147483648)
    (hstrs : strs.length < 2147483648)
    (htab : (encodeFront t l none sidx).length + 4 + sdata.length
        + (strs.map List.length).sum < 2147483648) :
    ∃ d, Read (some (encodeDump t l none sidx sdata strs))
        = (ReadExit.ok d, HandleState.stillOpen)
      ∧ d.stringsIndex.length = strs.length + 1
      ∧ ∀ i : Nat, ∀ hi : i < strs.length,
          GetString (encodeDump t l none sidx sdata strs) d i = strs.get ⟨i, hi⟩ := by
  refine ⟨_, read_encode_none t l sidx sdata strs ht hl hsidx hns hstrs htab, ?_, ?_⟩
  · simp [stringOffsets_length]
  · intro i hi
    have ha : (encodeFront t l none sidx
        ++ le32n ((encodeFront t l none sidx).length + 4 + sdata.length
            + (strs.map List.length).sum)
        ++ sdata).length
        = (encodeFront t l none sidx).length + 4 + sdata.length := by
      simp [le32n_length]
      omega
    have hef : encodeDump t l none sidx sdata strs
        = (encodeFront t l none sidx
            ++ le32n ((encodeFront t l none sidx).length + 4 + sdata.length
                + (strs.map List.length).sum)
            ++ sdata)
          ++ (strs.flatten
            ++ (le32n strs.length
              ++ ((stringOffsets ((encodeFront t l none sidx).length + 4
                    + sdata.length) strs).map le32n).flatten)) := by
      rw [encodeDump_eq]
      simp [List.append_assoc]
    have hcore := getString_core (encodeFront t l none sidx
        ++ le32n ((encodeFront t l none sidx).length + 4 + sdata.length
            + (strs.map List.length).sum)
        ++ sdata) strs
      (le32n strs.length
        ++ ((stringOffsets ((encodeFront t l none sidx).length + 4
              + sdata.length) strs).map le32n).flatten) i hi
    rw [ha] at hcore
    rw [GetString, hef]
    exact hcore

theorem propertyHolds_iff_empty_cycle_witness :
    (∀ d : SmcDumpData, PropertyHolds d = true ↔ d.cycle.length = 0) ∧
    (∃ d, Read (some (encodeDump [97] [70] (some ([0], [0])) [] [] []))
        = (ReadExit.ok d, HandleState.stillOpen)
      ∧ d.cycle = [0] ∧ PropertyHolds d = false) :=
  propertyHolds_iff_empty_cycle [97] [70] [0] [0] [] [] []
    (by decide) (by decide) (by decide) (by decide) (by decide) (by decide)
    (by decide) (by decide) (by decide) (by decide) (by decide)

theorem getString_roundtrip_witness :
    ∃ d, Read (some (encodeDump [97] [70] none [] [] [[], [104, 105], []]))
        = (ReadExit.ok d, HandleState.stillOpen)
      ∧ d.stringsIndex.length = ([[], [104, 105], []] : List (List Nat)).length + 1
      ∧ ∀ i : Nat, ∀ hi : i < ([[], [104, 105], []] : List (List Nat)).length,
          GetString (encodeDump [97] [70] none [] [] [[], [104, 105], []]) d i
            = ([[], [104, 105], []] : List (List Nat)).get ⟨i, hi⟩ :=
  getString_roundtrip [97] [70] [] [] [[], [104, 105], []]
    (by decide) (by decide) (by decide) (by decide) (by decide) (by decide)

theorem hasSignature_pure_on_long_files_witness :
    (HasSignature initialHeaderBuffer (some header)).1
      = decide ((header : List Nat).take 11 = header) ∧
    (HasSignature (List.replicate 11 5) (some (header ++ [1, 2, 3]))).1
      = decide ((header ++ [1, 2, 3] : List Nat).take 11 = header) :=
  ⟨hasSignature_pure_on_long_files initialHeaderBuffer header (by decide) (by decide),
   hasSignature_pure_on_long_files (List.replicate 11 5) (header ++ [1, 2, 3])
     (by decide) (by decide)⟩

end smcdump

namespace grapher

theorem graphState_items (gopt : GraphOpt) (dump : DumpM) (n t : Int)
    (s : SeenSets) : (graphState gopt dump n t s).1 = stateItems gopt dump n t := by
  cases gopt <;> rfl

theorem runChain_items (gopt : GraphOpt) (dump : DumpM)
    (pairs : List (Int × Int)) (s : SeenSets) :
    (runChain gopt dump pairs s).1
      = (pairs.map (fun pr => stateItems gopt dump pr.1 pr.2)).flatten := by
  induction pairs generalizing s with
  | nil => rfl
  | cons pr rest ih =>
    simp only [runChain, List.map_cons, List.flatten_cons]
    rw [graphState_items, ih]

theorem count_filter_append (p : DotItem → Bool) (a b : List DotItem) :
    ((a ++ b).filter p).length = (a.filter p).length + (b.filter p).length := by
  simp [List.filter_append]

theorem countNodes_stateItems (gopt : GraphOpt) (dump : DumpM) (n t : Int) :
    countNodes (stateItems gopt dump n t) = 1 := by
  cases gopt <;>
    simp [stateItems, graphState, countNodes, isNode, List.filter_map,
      Function.comp]

theorem countEdges_stateItems (gopt : GraphOpt) (dump : DumpM) (n t : Int) :
    countEdges (stateItems gopt dump n t)
      = ((dump.state n).successors.filter
          (fun tr => t < 0 ∨ tr.target = t)).length := by
  cases gopt <;>
    simp [stateItems, graphState, countEdges, isEdge, List.filter_map,
      Function.comp]

theorem sum_map_ones {α : Type} (l : List α) (f : α → Nat)
    (h : ∀ x ∈ l, f x = 1) : (l.map f).sum = l.length := by
  induction l with
  | nil => rfl
  | cons x xs ih =>
    simp only [List.map_cons, List.sum_cons, List.length_cons,
      h x (by simp), ih (fun y hy => h y (by simp [hy]))]
    omega

theorem count_flatten (p : DotItem → Bool) (ls : List (List DotItem)) :
    ((ls.flatten).filter p).length = (ls.map (fun l => (l.filter p).length)).sum := by
  induction ls with
  | nil => rfl
  | cons l rest ih =>
    simp only [List.flatten_cons, count_filter_append, List.map_cons,
      List.sum_cons, ih]

theorem chainTargets_length (l : List Int) (w : Int) :
    (chainTargets l w).length = l.length := by
  induction l with
  | nil => rfl
  | cons x xs ih => simp [chainTargets, ih]

theorem chainTargets_getLast (l : List Int) (w : Int) :
    (chainTargets l w).getLast? = l.getLast?.map (fun n => (n, w)) := by
  induction l with
  | nil => rfl
  | cons x xs ih =>
    cases xs with
    | nil => rfl
    | cons y ys =>
      rw [List.getLast?_cons_cons]
      show (chainTargets (y :: ys) w).getLast? = _
      rw [ih]

theorem stateItems_edge_target (gopt : GraphOpt) (dump : DumpM) (n tn : Int)
    (htn : 0 ≤ tn) (src tgt : Int) (lbl : List Nat)
    (hmem : DotItem.edge src tgt lbl ∈ stateItems gopt dump n tn) : tgt = tn := by
  have hfilter : ∀ tr ∈ (dump.state n).successors.filter
      (fun tr => tn < 0 ∨ tr.target = tn), tr.target = tn := by
    intro tr htr
    have := List.of_mem_filter htr
    simp only [decide_eq_true_eq] at this
    rcases this with h | h
    · omega
    · exact h
  cases gopt <;>
    · simp only [stateItems, graphState, List.mem_cons, List.mem_map,
        DotItem.edge.injEq] at hmem
      rcases hmem with h | ⟨tr, htr, _, h2, _⟩
      · simp at h
      · rw [← h2]
        exact hfilter tr htr

theorem runChain_seen_legend (dump : DumpM) (pairs : List (Int × Int))
    (s : SeenSets) :
    (runChain GraphOpt.Legend dump pairs s).2
      = ⟨s.seenTerms ∪ (pairs.map (fun pr => (dump.state pr.1).term)).toFinset,
         s.seenStrats
           ∪ (pairs.map (fun pr => (dump.state pr.1).strategy)).toFinset⟩ := by
  induction pairs generalizing s with
  | nil =>
    simp [runChain]
  | cons pr rest ih =>
    simp only [runChain]
    have hgs : (graphState GraphOpt.Legend dump pr.1 pr.2 s).2
        = ⟨insert (dump.state pr.1).term s.seenTerms,
           insert (dump.state pr.1).strategy s.seenStrats⟩ := rfl
    rw [hgs, ih]
    simp only [List.map_cons, List.toFinset_cons]
    simp [SeenSets.mk.injEq, Finset.insert_union, Finset.union_insert]

theorem counterDot_counts (gopt : GraphOpt) (g : SeenSets) (dump : DumpM)
    (_hC0 : dump.cycle ≠ [])
    (htargets : ∀ pr ∈ counterPairs dump, 0 ≤ pr.2)
    (huniq : ∀ pr ∈ counterPairs dump,
      ((dump.state pr.1).successors.filter
        (fun tr => tr.target = pr.2)).length = 1) :
    countNodes (GenerateCounterDot gopt g dump).items
      = dump.path.length + dump.cycle.length ∧
    countEdges (GenerateCounterDot gopt g dump).items
      = dump.path.length + dump.cycle.length ∧
    (∀ src tgt : Int, ∀ lbl : List Nat, ∀ n tn : Int, 0 ≤ tn →
      DotItem.edge src tgt lbl ∈ stateItems gopt dump n tn → tgt = tn) ∧
    (chainTargets dump.path (dump.cycle.getD 0 0)).getLast?
      = dump.path.getLast?.map (fun n => (n, dump.cycle.getD 0 0)) ∧
    (chainTargets dump.cycle (dump.cycle.getD 0 0)).getLast?
      = dump.cycle.getLast?.map (fun n => (n, dump.cycle.getD 0 0)) ∧
    (GenerateCounterDot gopt g dump).items
      = ((counterPairs dump).map
          (fun pr => stateItems gopt dump pr.1 pr.2)).flatten := by
  have hitems : (GenerateCounterDot gopt g dump).items
      = ((counterPairs dump).map
          (fun pr => stateItems gopt dump pr.1 pr.2)).flatten := by
    show (runChain gopt dump (counterPairs dump) ⟨∅, ∅⟩).1 = _
    exact runChain_items gopt dump (counterPairs dump) ⟨∅, ∅⟩
  have hplen : (counterPairs dump).length
      = dump.path.length + dump.cycle.length := by
    simp [counterPairs, chainTargets_length]
  refine ⟨?_, ?_, ?_, ?_, ?_, hitems⟩
  · rw [hitems]
    show ((_ : List DotItem).filter isNode).length = _
    rw [count_flatten]
    rw [List.map_map]
    have hones : ∀ pr ∈ counterPairs dump,
        ((fun l => (l.filter isNode).length)
          ∘ (fun pr => stateItems gopt dump pr.1 pr.2)) pr = 1 := by
      intro pr _
      exact countNodes_stateItems gopt dump pr.1 pr.2
    rw [sum_map_ones _ _ hones, hplen]
  · rw [hitems]
    show ((_ : List DotItem).filter isEdge).length = _
    rw [count_flatten]
    rw [List.map_map]
    have hones : ∀ pr ∈ counterPairs dump,
        ((fun l => (l.filter isEdge).length)
          ∘ (fun pr => stateItems gopt dump pr.1 pr.2)) pr = 1 := by
      intro pr hpr
      show countEdges (stateItems gopt dump pr.1 pr.2) = 1
      rw [countEdges_stateItems]
      have hfe : (dump.state pr.1).successors.filter
          (fun tr => pr.2 < 0 ∨ tr.target = pr.2)
          = (dump.state pr.1).successors.filter (fun tr => tr.target = pr.2) := by
        refine List.filter_congr (fun tr _ => ?_)
        have h2 := htargets pr hpr
        simp only [decide_eq_true_eq, decide_eq_decide]
        omega
      rw [hfe]
      exact huniq pr hpr
    rw [sum_map_ones _ _ hones, hplen]
  · intro src tgt lbl n tn htn hmem
    exact stateItems_edge_target gopt dump n tn htn src tgt lbl hmem
  · exact chainTargets_getLast dump.path (dump.cycle.getD 0 0)
  · exact chainTargets_getLast dump.cycle (dump.cycle.getD 0 0)

theorem counterDot_duplicate_transition_breaks_count :
    ((counterPairs twoEdgeDump).all
      (fun pr => (twoEdgeDump.state pr.1).successors.any
        (fun tr => tr.target = pr.2))) = true
    ∧ countNodes (GenerateCounterDot GraphOpt.Short ⟨∅, ∅⟩ twoEdgeDump).items
        = twoEdgeDump.path.length + twoEdgeDump.cycle.length
    ∧ countEdges (GenerateCounterDot GraphOpt.Short ⟨∅, ∅⟩ twoEdgeDump).items
        ≠ twoEdgeDump.path.length + twoEdgeDump.cycle.length := by
  refine ⟨?_, ?_, ?_⟩ <;> decide

theorem counterDot_counts_witness :
    countNodes (GenerateCounterDot GraphOpt.Short ⟨∅, ∅⟩ uniqueEdgeDump).items
      = uniqueEdgeDump.path.length + uniqueEdgeDump.cycle.length ∧
    countEdges (GenerateCounterDot GraphOpt.Short ⟨∅, ∅⟩ uniqueEdgeDump).items
      = uniqueEdgeDump.path.length + uniqueEdgeDump.cycle.length ∧
    (∀ src tgt : Int, ∀ lbl : List Nat, ∀ n tn : Int, 0 ≤ tn →
      DotItem.edge src tgt lbl ∈ stateItems GraphOpt.Short uniqueEdgeDump n tn
        → tgt = tn) ∧
    (chainTargets uniqueEdgeDump.path (uniqueEdgeDump.cycle.getD 0 0)).getLast?
      = uniqueEdgeDump.path.getLast?.map
          (fun n => (n, uniqueEdgeDump.cycle.getD 0 0)) ∧
    (chainTargets uniqueEdgeDump.cycle (uniqueEdgeDump.cycle.getD 0 0)).getLast?
      = uniqueEdgeDump.cycle.getLast?.map
          (fun n => (n, uniqueEdgeDump.cycle.getD 0 0)) ∧
    (GenerateCounterDot GraphOpt.Short ⟨∅, ∅⟩ uniqueEdgeDump).items
      = ((counterPairs uniqueEdgeDump).map
          (fun pr => stateItems GraphOpt.Short uniqueEdgeDump pr.1 pr.2)).flatten :=
  counterDot_counts GraphOpt.Short ⟨∅, ∅⟩ uniqueEdgeDump
    (by decide) (by decide) (by decide)

theorem legend_rows_exact (g g' : SeenSets) (dump : DumpM) :
    (∀ gopt : GraphOpt, GenerateDot gopt g dump = GenerateDot gopt g' dump ∧
      GenerateCounterDot gopt g dump = GenerateCounterDot gopt g' dump) ∧
    (GenerateDot GraphOpt.Legend g dump).legendTerms
      = some (nodeTermRefs dump (dotPairs dump)) ∧
    (GenerateDot GraphOpt.Legend g dump).legendStrats
      = some (nodeStratRefs dump (dotPairs dump)) ∧
    (GenerateCounterDot GraphOpt.Legend g dump).legendTerms
      = some (nodeTermRefs dump (counterPairs dump)) ∧
    (GenerateCounterDot GraphOpt.Legend g dump).legendStrats
      = some (nodeStratRefs dump (counterPairs dump)) := by
  refine ⟨fun gopt => ⟨rfl, rfl⟩, ?_, ?_, ?_, ?_⟩
  · show (if GraphOpt.Legend = GraphOpt.Legend then
        some (runChain GraphOpt.Legend dump (dotPairs dump) ⟨∅, ∅⟩).2.seenTerms
      else none) = some (nodeTermRefs dump (dotPairs dump))
    rw [if_pos rfl, runChain_seen_legend]
    simp [nodeTermRefs]
  · show (if GraphOpt.Legend = GraphOpt.Legend then
        some (runChain GraphOpt.Legend dump (dotPairs dump) ⟨∅, ∅⟩).2.seenStrats
      else none) = some (nodeStratRefs dump (dotPairs dump))
    rw [if_pos rfl, runChain_seen_legend]
    simp [nodeStratRefs]
  · show (if GraphOpt.Legend = GraphOpt.Legend then
        some (runChain GraphOpt.Legend dump (counterPairs dump) ⟨∅, ∅⟩).2.seenTerms
      else none) = some (nodeTermRefs dump (counterPairs dump))
    rw [if_pos rfl, runChain_seen_legend]
    simp [nodeTermRefs]
  · show (if GraphOpt.Legend = GraphOpt.Legend then
        some (runChain GraphOpt.Legend dump (counterPairs dump) ⟨∅, ∅⟩).2.seenStrats
      else none) = some (nodeStratRefs dump (counterPairs dump))
    rw [if_pos rfl, runChain_seen_legend]
    simp [nodeStratRefs]

theorem legend_misses_edge_labels :
    (5 : Int) ∈ edgeLabelRefs edgeLabelDump (dotPairs edgeLabelDump) ∧
    (GenerateDot GraphOpt.Legend ⟨∅, ∅⟩ edgeLabelDump).legendTerms
      = some {0} ∧
    (GenerateDot GraphOpt.Legend ⟨∅, ∅⟩ edgeLabelDump).legendStrats
      = some {0} ∧
    (5 : Int) ∉ ({0} ∪ {0} : Finset Int) := by
  refine ⟨?_, ?_, ?_, ?_⟩ <;> decide

end grapher
